import Mathlib

/-!
Shallow embedding of the AgentsLeak server-side processing pipeline
(classifier, risk scorer, sequence tracker, engine pre-tool evaluator,
store upserts and queries), with theorems checking the specification's
claims against it.

Conventions of the embedding:
* timestamps (`datetime`) are integers counting seconds;
* UUIDs are natural numbers, drawn from a fresh-id counter where the
  source draws `uuid4()`;
* Python dict-shaped tool inputs are association lists of string pairs,
  and the derived `event_data` mapping is a JSON-like `Value` tree;
* the regular-expression engine (`re.search`, `re.findall`), the shell
  file-reference parser and `urlparse` are pure text functions of the
  source; they are abstracted as a `TextFuns` parameter, so every theorem
  quantifies over them (concrete instantiations appear in witnesses).
-/

/-- Category of an event (`EventCategory` in `models/events.py`). -/
inductive EventCategory where
  | file_read | file_write | file_delete | command_exec | network_access
  | code_execution | subagent_spawn | mcp_tool_use | session_lifecycle | unknown
deriving DecidableEq, Repr

/-- Severity level (`Severity` in `models/events.py`). -/
inductive Severity where
  | critical | high | medium | low | info
deriving DecidableEq, Repr

/-- `str.lower()` on ASCII input / default SQLite `LIKE` case folding:
fold the ASCII uppercase range onto lowercase, leave anything else. -/
def lowChar (c : Char) : Char :=
  if 65 ≤ c.toNat ∧ c.toNat ≤ 90 then Char.ofNat (c.toNat + 32) else c

/-- ASCII-lowercase a string (`str.lower()` for ASCII content). -/
def lowerStr (s : String) : String := ⟨s.data.map lowChar⟩

/-- Python `pat in s` substring test. -/
def substrContains (s pat : String) : Bool := decide (pat.data <:+: s.data)

/-- `str.split(sep)` for a one-character separator (same semantics as
`String.splitOn`, implemented over the character list). -/
def splitOnC (sep : Char) (s : String) : List String :=
  (s.data.splitOnP (fun c => c = sep)).map (fun l => (⟨l⟩ : String))

/-- `s.startswith(pre)`. -/
def startsWithStr (s pre : String) : Bool := pre.data.isPrefixOf s.data

/-- `s.endswith(suf)`. -/
def endsWithStr (s suf : String) : Bool := suf.data.isSuffixOf s.data

/-- `os.path.basename` for POSIX paths: the part after the last slash. -/
def basename (p : String) : String := (splitOnC '/' p).getLastD p

/-- Python `s.strip().split()`: whitespace-separated tokens. -/
def pyTokens (s : String) : List String :=
  ((s.data.splitOnP (fun c => c.isWhitespace)).map
    (fun l => (⟨l⟩ : String))).filter (fun t => t ≠ "")

/-- A JSON-like value as it occurs in the derived `event_data` mapping:
every value `_event_to_dict` produces is a string, a list of strings, a
string-valued mapping (tool input/result), or `None`. -/
inductive Value where
  | vNull
  | vStr (s : String)
  | vStrList (xs : List String)
  | vStrDict (kvs : List (String × String))
deriving DecidableEq, Repr

/-- The `event_data` mapping handed to the policy matcher and sequence
tracker (a Python dict). -/
abbrev EventData : Type := List (String × Value)

/-- Comma-space join (Python `", ".join` / list rendering). -/
def joinComma : List String → String
  | [] => ""
  | [x] => x
  | x :: xs => x ++ ", " ++ joinComma xs

/-- Python `str(value)` as used on matched field values: strings render
bare, lists render with single-quoted elements, `None` renders as `None`. -/
def pyStr : Value → String
  | .vNull => "None"
  | .vStr s => s
  | .vStrList xs => "[" ++ joinComma
      (xs.map (fun v => "\x27" ++ v ++ "\x27")) ++ "]"
  | .vStrDict _ => "\x7b...\x7d"

/-- `SequenceTracker._get_nested`: walk a dot-separated path through the
mapping; a missing key, a non-dict intermediate, or a stored `None` all
yield `none` (the caller treats `None` as a miss). -/
def get_nested (data : EventData) (path : String) : Option Value :=
  let rec walk : List String → Value → Option Value
    | [], v => some v
    | q :: qs, .vStrDict kvs =>
        match kvs.lookup q with
        | some s => walk qs (.vStr s)
        | none => none
    | _ :: _, _ => none
  let r :=
    match splitOnC '.' path with
    | [] => none
    | p :: ps => (List.lookup p data).bind (walk ps)
  match r with
  | some .vNull => none
  | r => r

/-- Abstracted text primitives: the regex engine and parsing helpers the
pipeline delegates to.  `search` is `re.search` without flags, `searchCI`
with `re.IGNORECASE`; both return whether a match exists.  `findPaths`,
`findUrls`, `findIps` are the `re.findall` extractions over a command
string; `findFileRefs` is `extract_command_file_refs` (path, role pairs);
`hostname` is `urlparse(url).hostname or url`. -/
structure TextFuns where
  search : String → String → Bool
  searchCI : String → String → Bool
  findPaths : String → List String
  findUrls : String → List String
  findIps : String → List String
  findFileRefs : String → List (String × String)
  hostname : String → String

/-- An event record (`Event` in `models/events.py`); tool input/result
maps are modelled as string-valued association lists. -/
structure Event where
  id : Nat
  session_id : String
  timestamp : Int
  hook_type : String
  tool_name : Option String := none
  tool_input : Option (List (String × String)) := none
  tool_result : Option (List (String × String)) := none
  category : EventCategory := .unknown
  severity : Severity := .info
  file_paths : List String := []
  commands : List String := []
  urls : List String := []
  ip_addresses : List String := []
  processed : Bool := false
  enriched : Bool := false
  raw_payload : List (String × String) := []
deriving DecidableEq, Repr

/-- `TOOL_CATEGORY_MAP` from `engine/classifier.py`. -/
def TOOL_CATEGORY_MAP : List (String × EventCategory) :=
  [("Read", .file_read), ("read_file", .file_read), ("cat", .file_read),
   ("head", .file_read), ("tail", .file_read), ("Glob", .file_read),
   ("Grep", .file_read),
   ("Write", .file_write), ("Edit", .file_write), ("write_file", .file_write),
   ("NotebookEdit", .file_write),
   ("Bash", .command_exec), ("bash", .command_exec),
   ("execute_command", .command_exec), ("shell", .command_exec),
   ("WebFetch", .network_access), ("WebSearch", .network_access),
   ("fetch", .network_access), ("curl", .network_access),
   ("http", .network_access),
   ("Task", .subagent_spawn), ("dispatch_agent", .subagent_spawn),
   ("TaskCreate", .session_lifecycle), ("TaskUpdate", .session_lifecycle),
   ("TaskList", .session_lifecycle), ("TaskGet", .session_lifecycle),
   ("TaskStop", .session_lifecycle), ("TodoWrite", .session_lifecycle),
   ("TodoRead", .session_lifecycle),
   ("AskUserQuestion", .session_lifecycle), ("Skill", .session_lifecycle),
   ("EnterPlanMode", .session_lifecycle), ("ExitPlanMode", .session_lifecycle)]

/-- The network utility names consulted by `_is_network_command`. -/
def networkCommands : List String :=
  ["curl", "wget", "ssh", "scp", "rsync", "nc", "netcat",
   "ping", "traceroute", "dig", "nslookup", "host",
   "ftp", "sftp", "telnet"]

/-- `_is_network_command`: true when the lowercased command contains any
known network utility name as a substring. -/
def is_network_command (command : String) : Bool :=
  let cl := lowerStr command
  networkCommands.any (fun c => substrContains cl c)

/-- Key-presence test on a tool-input mapping (Python `k in tool_input`). -/
def hasKey (ti : List (String × String)) (k : String) : Bool :=
  (ti.lookup k).isSome

/-- `tool_input.get(k, "")`. -/
def getD (ti : List (String × String)) (k : String) : String :=
  (ti.lookup k).getD ""

/-- `classify_event` from `engine/classifier.py`: tool-name map first,
then tool-input shape, then hook type. -/
def classify_event (e : Event) : EventCategory :=
  let tn := e.tool_name.getD ""
  match (if tn ≠ "" then TOOL_CATEGORY_MAP.lookup tn else none) with
  | some c => c
  | none =>
    let ti := (e.tool_input.getD [])
    if hasKey ti "file_path" || hasKey ti "path" then
      if hasKey ti "content" || hasKey ti "new_string" then .file_write
      else .file_read
    else if hasKey ti "command" then
      if is_network_command (getD ti "command") then .network_access
      else .command_exec
    else if hasKey ti "url" then .network_access
    else if e.hook_type = "SessionStart" ∨ e.hook_type = "SessionEnd" ∨
            e.hook_type = "PermissionRequest" ∨ e.hook_type = "UserPromptSubmit" then
      .session_lifecycle
    else if e.hook_type = "SubagentStart" ∨ e.hook_type = "SubagentStop" then
      .subagent_spawn
    else .unknown

/-- The severity lattice rank used by `_max_severity`. -/
def severityRank : Severity → Nat
  | .info => 0 | .low => 1 | .medium => 2 | .high => 3 | .critical => 4

/-- `_max_severity`: the higher of two severities. -/
def max_severity (a b : Severity) : Severity :=
  if severityRank b ≤ severityRank a then a else b

/-- `DANGEROUS_COMMAND_PATTERNS` (regex source text, severity). -/
def DANGEROUS_COMMAND_PATTERNS : List (String × Severity) :=
  [("rm\\s+-rf\\s+/", .critical),
   (":()\x7b :|:& \x7d;:", .critical),
   ("mkfs\\.", .critical),
   ("dd\\s+if=.*of=/dev/", .critical),
   ("chmod\\s+-R\\s+777\\s+/", .critical),
   ("curl.*\\|\\s*(bash|sh)", .high),
   ("wget.*\\|\\s*(bash|sh)", .high),
   ("rm\\s+-rf", .high),
   ("sudo\\s+", .high),
   ("chmod\\s+[0-7]*7[0-7]*", .high),
   ("chown\\s+-R", .high),
   ("nc\\s+-.*-e", .high),
   ("python.*-c.*socket", .high),
   ("base64\\s+-d.*\\|", .high),
   ("python[23]?\\s+-c\\s+.*(?:import\\s+(?:requests|urllib|http|socket)|urlopen|urlretrieve)", .high),
   ("node\\s+-e\\s+.*(?:require\\s*\\(\\s*[\x27\x22](?:http|https|net|child_process)|fetch\\s*\\()", .high),
   ("ruby\\s+-e\\s+.*(?:Net::HTTP|TCPSocket|open-uri|URI\\.open)", .high),
   ("perl\\s+-e\\s+.*(?:LWP|IO::Socket|Net::HTTP)", .high),
   ("base64.*(?:\\.env|\\.pem|\\.key|credential|secret|password|ssh)", .high),
   ("openssl\\s+(?:enc|base64).*(?:\\.env|\\.pem|\\.key)", .high),
   ("xxd.*(?:\\.env|\\.pem|\\.key|credential)", .high),
   ("\\$\\(.*(?:curl|wget|base64|cat\\s+.*\\.env)", .high),
   ("eval\\s+.*(?:curl|wget|base64|\\\\x)", .high),
   ("echo\\s+[A-Za-z0-9+/=]\x7b20,\x7d\\s*\\|\\s*base64\\s+-d", .high),
   ("curl\\s+", .medium),
   ("wget\\s+", .medium),
   ("git\\s+clone", .medium),
   ("pip\\s+install", .medium),
   ("npm\\s+install", .medium),
   ("ssh\\s+", .medium),
   ("scp\\s+", .medium),
   ("git\\s+", .low),
   ("ls\\s+", .info),
   ("pwd", .info),
   ("echo\\s+", .info)]

/-- `SENSITIVE_FILE_PATTERNS` (regex source text, severity). -/
def SENSITIVE_FILE_PATTERNS : List (String × Severity) :=
  [("/etc/passwd", .high),
   ("/etc/shadow", .critical),
   ("\\.ssh/.*", .high),
   ("id_rsa", .critical),
   ("id_ed25519", .critical),
   ("\\.aws/credentials", .critical),
   ("\\.env", .high),
   ("\\.netrc", .high),
   ("\\.pgpass", .high),
   ("\\.git/config", .medium),
   ("password", .medium),
   ("secret", .medium),
   ("token", .medium),
   ("api.?key", .medium),
   ("\\.bashrc", .low),
   ("\\.zshrc", .low),
   ("\\.profile", .low)]

/-- `compute_severity` from `engine/classifier.py`: scan the command and
the file paths against the pattern tables (case-insensitive search),
taking the maximum severity, then floor network at low and subagent
spawns at medium. -/
def compute_severity (tf : TextFuns) (e : Event) : Severity :=
  let ti := e.tool_input.getD []
  let s0 : Severity := .info
  let s1 :=
    if e.category = .command_exec then
      let command := getD ti "command"
      DANGEROUS_COMMAND_PATTERNS.foldl
        (fun acc (p : String × Severity) =>
          if tf.searchCI p.1 command then max_severity acc p.2 else acc) s0
    else s0
  let fpField :=
    if getD ti "file_path" ≠ "" then getD ti "file_path" else getD ti "path"
  let file_paths := (if fpField ≠ "" then [fpField] else []) ++ e.file_paths
  let s2 := file_paths.foldl
    (fun acc path =>
      SENSITIVE_FILE_PATTERNS.foldl
        (fun acc (p : String × Severity) =>
          if tf.searchCI p.1 path then max_severity acc p.2 else acc) acc) s1
  let s3 := if e.category = .network_access then max_severity s2 .low else s2
  if e.category = .subagent_spawn then max_severity s3 .medium else s3

/-- Deduplicate keeping first occurrences (`list(set(...))`, whose order
the source does not rely on). -/
def dedupFirst : List String → List String :=
  let rec go (seen : List String) : List String → List String
    | [] => []
    | x :: xs => if seen.contains x then go seen xs else x :: go (x :: seen) xs
  go []

/-- `extract_file_paths`: direct path fields, the Glob pattern, and the
regex extraction over a command, deduplicated. -/
def extract_file_paths (tf : TextFuns) (e : Event) : List String :=
  let ti := e.tool_input.getD []
  let direct := (["file_path", "path", "notebook_path"].filterMap
    (fun f => ti.lookup f))
  let globs :=
    if hasKey ti "pattern" ∧ e.tool_name = some "Glob" then [getD ti "pattern"]
    else []
  let fromCmd := if hasKey ti "command" then tf.findPaths (getD ti "command") else []
  dedupFirst (direct ++ globs ++ fromCmd)

/-- `extract_commands`: the `command` field when present. -/
def extract_commands (e : Event) : List String :=
  let ti := e.tool_input.getD []
  if hasKey ti "command" then [getD ti "command"] else []

/-- `extract_urls`: the `url` field plus URL regex matches in a command,
deduplicated. -/
def extract_urls (tf : TextFuns) (e : Event) : List String :=
  let ti := e.tool_input.getD []
  let fromField := if hasKey ti "url" then [getD ti "url"] else []
  let fromCmd := if hasKey ti "command" then tf.findUrls (getD ti "command") else []
  dedupFirst (fromField ++ fromCmd)

/-- `extract_ip_addresses`: IPv4 regex matches in the command and url
fields, deduplicated. -/
def extract_ip_addresses (tf : TextFuns) (e : Event) : List String :=
  let ti := e.tool_input.getD []
  let fromCmd := if hasKey ti "command" then tf.findIps (getD ti "command") else []
  let fromUrl := if hasKey ti "url" then tf.findIps (getD ti "url") else []
  dedupFirst (fromCmd ++ fromUrl)

/-- `Engine.enrich`: populate the extracted lists and set the flag. -/
def enrich (tf : TextFuns) (e : Event) : Event :=
  { e with
    file_paths := extract_file_paths tf e
    commands := extract_commands e
    urls := extract_urls tf e
    ip_addresses := extract_ip_addresses tf e
    enriched := true }

/-- `Engine.classify`: set category and severity. -/
def classify (tf : TextFuns) (e : Event) : Event :=
  let e1 := { e with category := classify_event e }
  { e1 with severity := compute_severity tf e1 }

/-- `Engine._FILE_RISK_SIGNALS` (regex source text, weight). -/
def FILE_RISK_SIGNALS : List (String × Nat) :=
  [("\\.ssh/(id_|authorized_keys|known_hosts)", 15),
   ("\\.(pem|key|p12|pfx|jks|keystore)$", 12),
   ("\\.aws/(credentials|config)", 15),
   ("\\.gcloud/|\\.azure/|\\.kube/config", 12),
   ("\\.git-credentials|\\.netrc", 12),
   ("\\.env(\\.\\w+)?$", 10),
   ("(secret|credential|password|token)s?(\\.\\w+)?$", 10),
   ("/etc/(passwd|shadow|sudoers)", 10),
   ("/proc/(self|[0-9]+)/(environ|maps|cmdline)", 8),
   ("(cookies|login\\s*data|\\.gnupg)", 8)]

/-- `Engine._CMD_RISK_SIGNALS` (regex source text, weight). -/
def CMD_RISK_SIGNALS : List (String × Nat) :=
  [("/dev/tcp/|/dev/udp/", 25),
   ("nc\\b.*-e\\s+/bin/|ncat\\b.*-e\\s+/bin/", 25),
   ("mkfifo.*nc\\b|socat\\b.*exec:", 25),
   ("curl\\b.*\\|\\s*(ba)?sh|wget\\b.*\\|\\s*(ba)?sh", 20),
   ("curl\\b.*-o\\s+\\S+.*&&.*chmod\\s+\\+x", 20),
   ("curl\\b.*(-F|--data|--upload-file)\\s+.*@", 18),
   ("curl\\b.*\\|\\s*base64", 15),
   ("base64\\b.*(-d|--decode|encode)", 10),
   ("\\beval\\b.*\\$\\(|`.*`.*\\beval\\b", 12),
   ("python[23]?\\s+-c\\s+.*\\b(requests|urllib|socket)\\b", 12),
   ("node\\s+-e\\s+.*\\bfetch\\b", 10),
   ("ruby\\s+-e\\s+.*\\bNet::HTTP\\b", 10),
   ("\\bsudo\\b.*chmod\\s+[0-7]*[4-7][0-7]\x7b2\x7d|chown\\s+root", 8),
   ("\\bchmod\\b.*\\+s\\b", 10),
   ("\\bwhoami\\b|\\bid\\b|\\buname\\b.*-a", 3)]

/-- `Engine._SEARCH_RISK_SIGNALS` (regex source text, weight). -/
def SEARCH_RISK_SIGNALS : List (String × Nat) :=
  [("password|passwd|api_key|api.key|secret.key|token", 8),
   ("AKIA[0-9A-Z]|aws_secret|aws_access", 12),
   ("BEGIN\\s+(RSA|DSA|EC|OPENSSH)\\s+PRIVATE", 15),
   ("ghp_[A-Za-z0-9]|github_pat_", 10)]

/-- `Engine._URL_RISK_SIGNALS` (regex source text, weight, whether the
pattern is compiled with `re.IGNORECASE`). -/
def URL_RISK_SIGNALS : List (String × Nat × Bool) :=
  [("https?://(?!127\\.|0\\.|10\\.|192\\.168\\.|172\\.(1[6-9]|2|3[01])\\.)\\d+\\.\\d+\\.\\d+\\.\\d+", 8, false),
   ("(pastebin|requestbin|ngrok|burp|interact\\.sh|oast)", 12, true)]

/-- The IPv4 prefixes `_compute_event_risk` step 5 treats as internal:
`ip.startswith(("127.", "0.", "10.", "192.168.", "172."))`. -/
def riskIpPrefixes : List String := ["127.", "0.", "10.", "192.168.", "172."]

/-- `Engine._compute_event_risk`: additive score over file paths (first
matching signal per path), commands (all matching signals), Grep/Search
patterns, URLs (first matching signal per URL), and a flat 6 per IPv4
not starting with an internal prefix. -/
def compute_event_risk (tf : TextFuns) (e : Event) : Nat :=
  let ti := e.tool_input.getD []
  let filePart := e.file_paths.foldl
    (fun acc fp =>
      match FILE_RISK_SIGNALS.find? (fun p => tf.searchCI p.1 fp) with
      | some p => acc + p.2
      | none => acc) 0
  let cmdPart := e.commands.foldl
    (fun acc cmd =>
      CMD_RISK_SIGNALS.foldl
        (fun a p => if tf.searchCI p.1 cmd then a + p.2 else a) acc) filePart
  let searchPart :=
    if (e.tool_input.getD []) ≠ [] ∧
        (e.tool_name = some "Grep" ∨ e.tool_name = some "Search") then
      let search_text := getD ti "pattern"
      SEARCH_RISK_SIGNALS.foldl
        (fun a p => if tf.searchCI p.1 search_text then a + p.2 else a) cmdPart
    else cmdPart
  let urlPart := e.urls.foldl
    (fun acc url =>
      match URL_RISK_SIGNALS.find?
        (fun p => if p.2.2 then tf.searchCI p.1 url else tf.search p.1 url) with
      | some p => acc + p.2.1
      | none => acc) searchPart
  e.ip_addresses.foldl
    (fun acc ip =>
      if riskIpPrefixes.any (fun pre => startsWithStr ip pre) then acc
      else acc + 6) urlPart

/-- Policy / sequence action (`PolicyAction` in the alerts model). -/
inductive PolicyAction where
  | alert | block | log
deriving DecidableEq, Repr

/-- A single step of a sequence rule (`SequenceStep`). -/
structure SequenceStep where
  label : String
  categories : List String := []
  field_patterns : List (String × String) := []
deriving DecidableEq, Repr

/-- A multi-step behavioral rule (`SequenceRule`). -/
structure SequenceRule where
  id : String
  name : String
  description : String := ""
  steps : List SequenceStep
  time_window_seconds : Int := 300
  ordered : Bool := true
  action : PolicyAction := .alert
  severity : Severity := .critical
  alert_title : String := ""
  alert_description : String := ""
  tags : List String := []
  enabled : Bool := true
deriving DecidableEq, Repr

/-- An event in a session's sliding window (`_BufferedEvent`). -/
structure BufferedEvent where
  event_id : Nat
  timestamp : Int
  data : EventData
deriving DecidableEq, Repr

/-- The sequence tracker's mutable state: loaded rules, per-session
bounded buffers, and the fired `(rule_id, session_id)` dedup set. -/
structure TrackerState where
  rules : List SequenceRule := []
  buffers : List (String × List BufferedEvent) := []
  max_buffer_size : Nat := 500
  fired : List (String × String) := []
deriving DecidableEq, Repr

/-- `SequenceTracker._matches_step`: category allowlist plus one
case-insensitive regex per field pattern; a missing field is a miss. -/
def matches_step (tf : TextFuns) (step : SequenceStep) (event_data : EventData)
    : Bool :=
  let catOk :=
    if step.categories ≠ [] then
      let event_cat := pyStr ((List.lookup "category" event_data).getD (.vStr ""))
      step.categories.contains event_cat
    else true
  catOk && step.field_patterns.all (fun fp =>
    match get_nested event_data fp.1 with
    | none => false
    | some v => tf.searchCI fp.2 (pyStr v))

/-- Stable ascending insertion sort by timestamp (`sorted(..., key=ts)`). -/
def insertByTs (e : BufferedEvent) : List BufferedEvent → List BufferedEvent
  | [] => [e]
  | x :: xs => if x.timestamp ≤ e.timestamp then x :: insertByTs e xs
               else e :: x :: xs

/-- Stable sort by timestamp. -/
def sortByTs : List BufferedEvent → List BufferedEvent
  | [] => []
  | x :: xs => insertByTs x (sortByTs xs)

/-- The greedy scan of `_find_ordered_match`: per step, pick the
earliest match at or after the previously picked time. -/
def fomGo (last : Option Int) : List (List BufferedEvent) →
    Option (List BufferedEvent)
  | [] => some []
  | ms :: rest =>
    match (sortByTs ms).find?
        (fun e => match last with
                  | none => true
                  | some t => t ≤ e.timestamp) with
    | none => none
    | some e => (fomGo (some e.timestamp) rest).map (fun l => e :: l)

/-- `SequenceTracker._find_ordered_match`. -/
def find_ordered_match (step_matches : List (List BufferedEvent)) :
    Option (List BufferedEvent) :=
  fomGo none step_matches

/-- Per-step match lists over the window; `none` as soon as a step has no
matching events. -/
def step_match_lists (tf : TextFuns) (window : List BufferedEvent) :
    List SequenceStep → Option (List (List BufferedEvent))
  | [] => some []
  | s :: ss =>
    let matching := window.filter (fun e => matches_step tf s e.data)
    if matching = [] then none
    else (step_match_lists tf window ss).map (fun rest => matching :: rest)

/-- `SequenceTracker._check_rule`: restrict the session buffer to the
rule's time window, match each step, then apply the ordering mode. -/
def check_rule (tf : TextFuns) (st : TrackerState) (rule : SequenceRule)
    (session_id : String) (now : Int) : Option (List BufferedEvent) :=
  match st.buffers.lookup session_id with
  | none => none
  | some buf =>
    if buf = [] then none
    else
      let cutoff := now - rule.time_window_seconds
      let window_events := buf.filter (fun e => cutoff ≤ e.timestamp)
      if window_events = [] then none
      else
        match step_match_lists tf window_events rule.steps with
        | none => none
        | some step_matches =>
          if rule.ordered then find_ordered_match step_matches
          else some (step_matches.map (fun ms => ms.headD ⟨0, 0, []⟩))

/-- Replace (or add) a session's buffer in the buffers table. -/
def setBuffer (buffers : List (String × List BufferedEvent)) (sid : String)
    (buf : List BufferedEvent) : List (String × List BufferedEvent) :=
  if (buffers.lookup sid).isSome then
    buffers.map (fun b => if b.1 = sid then (sid, buf) else b)
  else buffers ++ [(sid, buf)]

/-- The dedup loop over rules inside `track_event`: check each rule and
fire it unless its `(rule_id, session_id)` key is already in the set. -/
def trackRulesLoop (tf : TextFuns) (st : TrackerState) (session_id : String)
    (now : Int) : List SequenceRule → List (String × String) →
      List (SequenceRule × List BufferedEvent) × List (String × String)
  | [], fired => ([], fired)
  | rule :: rest, fired =>
    match check_rule tf st rule session_id now with
    | none => trackRulesLoop tf st session_id now rest fired
    | some result =>
      if (rule.id, session_id) ∈ fired then
        trackRulesLoop tf st session_id now rest fired
      else
        let r :=
          trackRulesLoop tf st session_id now rest (fired ++ [(rule.id, session_id)])
        ((rule, result) :: r.1, r.2)

/-- `SequenceTracker.track_event`: append to the session buffer (bounded
deque), prune entries older than the largest rule window, then check all
rules with `(rule_id, session_id)` deduplication. -/
def track_event (tf : TextFuns) (st : TrackerState) (event_id : Nat)
    (session_id : String) (timestamp : Int) (event_data : EventData) :
    List (SequenceRule × List BufferedEvent) × TrackerState :=
  let buf := (st.buffers.lookup session_id).getD []
  let entry : BufferedEvent := ⟨event_id, timestamp, event_data⟩
  let buf := buf ++ [entry]
  let buf := if buf.length > st.max_buffer_size
             then buf.drop (buf.length - st.max_buffer_size) else buf
  let max_window := ((st.rules.map (fun r => r.time_window_seconds)).max?).getD 300
  let cutoff := timestamp - max_window
  let buf := buf.dropWhile (fun e => e.timestamp < cutoff)
  let st₁ := { st with buffers := setBuffer st.buffers session_id buf }
  let r := trackRulesLoop tf st₁ session_id timestamp st₁.rules st₁.fired
  (r.1, { st₁ with fired := r.2 })

/-- `SequenceTracker.reset_session`: drop the session's buffer and its
entries of the fired set. -/
def reset_session (st : TrackerState) (session_id : String) : TrackerState :=
  { st with
    buffers := st.buffers.filter (fun b => b.1 ≠ session_id)
    fired := st.fired.filter (fun k => k.2 ≠ session_id) }

/-- The `.value` string of a category. -/
def categoryStr : EventCategory → String
  | .file_read => "file_read" | .file_write => "file_write"
  | .file_delete => "file_delete" | .command_exec => "command_exec"
  | .network_access => "network_access" | .code_execution => "code_execution"
  | .subagent_spawn => "subagent_spawn" | .mcp_tool_use => "mcp_tool_use"
  | .session_lifecycle => "session_lifecycle" | .unknown => "unknown"

/-- The `.value` string of a severity. -/
def severityStr : Severity → String
  | .critical => "critical" | .high => "high" | .medium => "medium"
  | .low => "low" | .info => "info"

/-- Modelled from the spec: `models/alerts.py` is not part of the given
sources; condition operators follow SS4.3 of the specification. -/
inductive CondOp where
  | equals | not_equals | contains | not_contains | starts_with | ends_with
  | matches | not_matches | greater_than | less_than | inList | notInList
deriving DecidableEq, Repr

/-- Modelled from the spec: a policy condition (field path, operator,
value, case flag); `values` carries the list form used by IN/NOT_IN. -/
structure PolicyCondition where
  field : String
  op : CondOp
  value : String := ""
  values : List String := []
  case_sensitive : Bool := false
deriving DecidableEq, Repr

/-- Modelled from the spec: condition combination logic. -/
inductive PolicyLogic where
  | allLogic | anyLogic
deriving DecidableEq, Repr

/-- Modelled from the spec: a declarative detection policy (SS3). -/
structure Policy where
  id : Nat
  name : String
  description : String := ""
  enabled : Bool := true
  categories : List String := []
  tools : List String := []
  conditions : List PolicyCondition := []
  logic : PolicyLogic := .allLogic
  action : PolicyAction := .alert
  severity : Severity := .medium
  alert_title : String := ""
  alert_description : String := ""
  tags : List String := []
deriving DecidableEq, Repr

/-- Modelled from the spec: one evidence item of an alert (SS3). -/
structure EvidenceItem where
  event_id : Nat
  timestamp : Int := 0
  description : String := ""
  data : List (String × String) := []
  file_path : Option String := none
  command : Option String := none
  url : Option String := none
deriving DecidableEq, Repr

/-- Modelled from the spec: an alert record (SS3). -/
structure Alert where
  id : Nat
  session_id : String
  created_at : Int := 0
  title : String := ""
  description : String := ""
  severity : Severity := .medium
  category : EventCategory := .unknown
  status : String := "new"
  policy_id : Option Nat := none
  event_ids : List Nat := []
  evidence : List EvidenceItem := []
  blocked : Bool := false
  action_taken : Option String := none
  tags : List String := []
deriving DecidableEq, Repr

/-- Modelled from the spec: `Alert.add_evidence` appends one item. -/
def add_evidence (a : Alert) (event_id : Nat) (description : String)
    (data : List (String × String)) (file_path command url : Option String)
    : Alert :=
  { a with evidence := a.evidence ++
      [{ event_id := event_id, description := description, data := data,
         file_path := file_path, command := command, url := url }] }

/-- Modelled from the spec: evaluate one operator on a single string
value; case-insensitive operators lowercase both sides first, and the
regex operators consult the abstract engine. -/
def evalOpStr (tf : TextFuns) (c : PolicyCondition) (fieldVal : String) : Bool :=
  let a := if c.case_sensitive then fieldVal else lowerStr fieldVal
  let b := if c.case_sensitive then c.value else lowerStr c.value
  match c.op with
  | .equals => a = b
  | .not_equals => a ≠ b
  | .contains => substrContains a b
  | .not_contains => ¬ substrContains a b
  | .starts_with => startsWithStr a b
  | .ends_with => endsWithStr a b
  | .matches => if c.case_sensitive then tf.search c.value fieldVal
                else tf.searchCI c.value fieldVal
  | .not_matches => if c.case_sensitive then ¬ tf.search c.value fieldVal
                    else ¬ tf.searchCI c.value fieldVal
  | .greater_than =>
      match fieldVal.toInt?, c.value.toInt? with
      | some x, some y => y < x
      | _, _ => false
  | .less_than =>
      match fieldVal.toInt?, c.value.toInt? with
      | some x, some y => x < y
      | _, _ => false
  | .inList => c.values.contains a
  | .notInList => ¬ c.values.contains a

/-- Modelled from the spec: evaluate a condition against the event_data
map; a missing path is a miss, a list-valued field ORs over elements. -/
def eval_condition (tf : TextFuns) (c : PolicyCondition) (d : EventData) : Bool :=
  match get_nested d c.field with
  | none => false
  | some (.vStrList xs) => xs.any (fun x => evalOpStr tf c x)
  | some v => evalOpStr tf c (pyStr v)

/-- String value of a top-level event_data key, defaulting to "". -/
def dataStr (d : EventData) (k : String) : String :=
  pyStr ((List.lookup k d).getD (.vStr ""))

/-- Modelled from the spec: `Policy.matches` (SS4.3) — disabled policies
never match; then the category allowlist, the tool allowlist, and the
conditions combined by the policy's logic (a policy with no conditions
matches). -/
def policy_matches (tf : TextFuns) (p : Policy) (d : EventData) : Bool :=
  if ¬ p.enabled then false
  else if p.categories ≠ [] ∧ ¬ p.categories.contains (dataStr d "category") then
    false
  else if p.tools ≠ [] ∧ ¬ p.tools.contains (dataStr d "tool_name") then
    false
  else if p.conditions = [] then true
  else
    match p.logic with
    | .allLogic => p.conditions.all (fun c => eval_condition tf c d)
    | .anyLogic => p.conditions.any (fun c => eval_condition tf c d)

/-- A row of the `sessions` table. -/
structure SessionRow where
  session_id : String
  started_at : Int := 0
  ended_at : Option Int := none
  cwd : Option String := none
  event_count : Int := 0
  alert_count : Int := 0
  risk_score : Nat := 0
  status : String := "active"
  endpoint_hostname : Option String := none
deriving DecidableEq, Repr

/-- Node type enum (`NodeType` in `models/graph.py`). -/
inductive NodeType where
  | session | file | directory | command | process | network | url
  | ip_address | tool | user | alert
deriving DecidableEq, Repr

/-- Edge relation enum (`EdgeRelation` in `models/graph.py`). -/
inductive EdgeRelation where
  | reads | writes | creates | deletes | modifies
  | executes | spawns | terminates
  | connects_to | downloads_from | uploads_to | fetches
  | contains | parent_of | child_of
  | uses | invokes
  | triggers | related_to
deriving DecidableEq, Repr

/-- A row of the `graph_nodes` table; identity key is `(node_type, value)`
(unique index). -/
structure NodeRow where
  id : Nat
  node_type : NodeType
  value : String
  label : String
  first_seen : Int
  last_seen : Int
  access_count : Nat := 1
  alert_count : Nat := 0
  session_ids : List String := []
  event_ids : List Nat := []
  size : Nat := 1
deriving DecidableEq, Repr

/-- A row of the `graph_edges` table; identity key is
`(source_id, target_id, relation)` (unique index). -/
structure EdgeRow where
  id : Nat
  source_id : Nat
  target_id : Nat
  relation : EdgeRelation
  first_seen : Int
  last_seen : Int
  count : Nat := 1
  session_ids : List String := []
  event_ids : List Nat := []
  weight : Nat := 1
deriving DecidableEq, Repr

/-- The persistent store: the tables the claims touch, plus the fresh-id
counter standing for `uuid4()` draws. -/
structure DB where
  sessions : List SessionRow := []
  events : List Event := []
  alerts : List Alert := []
  graph_nodes : List NodeRow := []
  graph_edges : List EdgeRow := []
  nextId : Nat := 0
deriving DecidableEq, Repr

/-- `Database.increment_session_event_count`: `UPDATE sessions SET
event_count = event_count + 1, status = 'active', ended_at = NULL WHERE
session_id = ?`. -/
def increment_session_event_count (db : DB) (session_id : String) : DB :=
  { db with sessions := db.sessions.map (fun r =>
      if r.session_id = session_id then
        { r with event_count := r.event_count + 1, status := "active",
                 ended_at := none }
      else r) }

/-- `Database.increment_session_alert_count`. -/
def increment_session_alert_count (db : DB) (session_id : String) : DB :=
  { db with sessions := db.sessions.map (fun r =>
      if r.session_id = session_id then
        { r with alert_count := r.alert_count + 1 }
      else r) }

/-- `Database.increment_session_risk_score`. -/
def increment_session_risk_score (db : DB) (session_id : String) (delta : Nat)
    : DB :=
  { db with sessions := db.sessions.map (fun r =>
      if r.session_id = session_id then
        { r with risk_score := r.risk_score + delta }
      else r) }

/-- `Database.end_session`: mark ended at the given time. -/
def end_session (db : DB) (now : Int) (session_id : String) : DB :=
  { db with sessions := db.sessions.map (fun r =>
      if r.session_id = session_id then
        { r with ended_at := some now, status := "ended" }
      else r) }

/-- `Database.save_alert` for a freshly constructed alert: a plain insert
(the on-conflict branch never applies to a new id). -/
def save_alert (db : DB) (a : Alert) : DB :=
  { db with alerts := db.alerts ++ [a] }

/-- A pre-tool decision (`Decision` in `models/events.py`). -/
structure Decision where
  allow : Bool := true
  reason : Option String := none
  alert_id : Option Nat := none
deriving DecidableEq, Repr

/-- The engine's mutable surroundings: the store, the policy cache, the
sequence tracker, the async queue and the pub/sub broadcast log. -/
structure EngineState where
  db : DB := {}
  policies : List Policy := []
  tracker : TrackerState := {}
  queue : List Event := []
  broadcast_alerts : List Alert := []
deriving Repr

/-- `Engine._event_to_dict`: the event_data mapping for policy and
sequence matching (top-level fields plus selected raw-payload keys). -/
def event_to_dict (e : Event) : EventData :=
  let rawGet (k : String) : Value :=
    match e.raw_payload.lookup k with
    | some s => .vStr s
    | none => .vNull
  let sessionCwd : Value :=
    match e.raw_payload.lookup "session_cwd" with
    | some s => if s ≠ "" then .vStr s else rawGet "cwd"
    | none => rawGet "cwd"
  [("id", .vStr (toString e.id)),
   ("session_id", .vStr e.session_id),
   ("hook_type", .vStr e.hook_type),
   ("tool_name", match e.tool_name with | some t => .vStr t | none => .vNull),
   ("tool_input", .vStrDict (e.tool_input.getD [])),
   ("tool_result", .vStrDict (e.tool_result.getD [])),
   ("category", .vStr (categoryStr e.category)),
   ("severity", .vStr (severityStr e.severity)),
   ("file_paths", .vStrList e.file_paths),
   ("commands", .vStrList e.commands),
   ("urls", .vStrList e.urls),
   ("ip_addresses", .vStrList e.ip_addresses),
   ("permission_mode", rawGet "permission_mode"),
   ("query", rawGet "query"),
   ("transcript_path", rawGet "transcript_path"),
   ("session_cwd", sessionCwd),
   ("parent_session_id", rawGet "parent_session_id")]

/-- The policy loop of `Engine.evaluate_pre_tool`: skip non-BLOCK
policies; on the first match persist a blocked alert, bump the session's
alert counter, record the broadcast, and stop with a deny decision. -/
def preToolLoop (tf : TextFuns) (e : Event) (db : DB)
    (broadcasts : List Alert) : List Policy → Decision × DB × List Alert
  | [] => ({ allow := true }, db, broadcasts)
  | p :: ps =>
    if p.action = .block ∧ policy_matches tf p (event_to_dict e) then
      let alert : Alert :=
        { id := db.nextId
          session_id := e.session_id
          title := if p.alert_title ≠ "" then p.alert_title
                   else "Blocked: " ++ p.name
          description := if p.alert_description ≠ "" then p.alert_description
                         else p.description
          severity := p.severity
          category := e.category
          policy_id := some p.id
          event_ids := [e.id]
          blocked := true }
      let alert := add_evidence alert e.id ("Blocked by policy: " ++ p.name)
        [("tool_name", e.tool_name.getD ""), ("category", categoryStr e.category)]
        e.file_paths.head? e.commands.head? e.urls.head?
      let db := { save_alert db alert with nextId := db.nextId + 1 }
      let db := increment_session_alert_count db e.session_id
      ({ allow := false,
         reason := some ("Blocked by policy: " ++ p.name),
         alert_id := some alert.id },
       db, broadcasts ++ [alert])
    else preToolLoop tf e db broadcasts ps

/-- `Engine.evaluate_pre_tool`: enrich and classify, then run the
blocking-policy loop; allow by default. -/
def evaluate_pre_tool (tf : TextFuns) (st : EngineState) (e : Event) :
    Decision × EngineState :=
  let e₁ := classify tf (enrich tf e)
  let r := preToolLoop tf e₁ st.db st.broadcast_alerts st.policies
  (r.1, { st with db := r.2.1, broadcast_alerts := r.2.2 })

/-- `Engine._update_risk_score`: apply the content-risk delta to the
session only when it is positive. -/
def update_risk_score (tf : TextFuns) (db : DB) (e : Event) : DB :=
  let risk_delta := compute_event_risk tf e
  if risk_delta > 0 then
    increment_session_risk_score db e.session_id risk_delta
  else db

/-- A node proposal as the graph builder constructs it (fresh `GraphNode`
with default counters; timestamps default to the construction time). -/
structure NodeProp where
  node_type : NodeType
  label : String
  value : String
  session_ids : List String := []
  event_ids : List Nat := []
deriving DecidableEq, Repr

/-- An edge proposal as the graph builder constructs it. -/
structure EdgeProp where
  source_id : Nat
  target_id : Nat
  relation : EdgeRelation
  session_ids : List String := []
  event_ids : List Nat := []
deriving DecidableEq, Repr

/-- `Database.save_graph_node`: insert, or on `(node_type, value)`
conflict advance `last_seen`, add the proposal's counters
(`access_count + 1`, `alert_count + 0`, `size + 1`), and overwrite
`session_ids`/`event_ids`; returns the effective id. -/
def save_graph_node (db : DB) (now : Int) (p : NodeProp) : DB × Nat :=
  match db.graph_nodes.find?
      (fun r => r.node_type = p.node_type ∧ r.value = p.value) with
  | some r =>
    ({ db with graph_nodes := db.graph_nodes.map (fun q =>
        if q.node_type = p.node_type ∧ q.value = p.value then
          { q with last_seen := now, access_count := q.access_count + 1,
                   session_ids := p.session_ids, event_ids := p.event_ids,
                   size := q.size + 1 }
        else q) }, r.id)
  | none =>
    ({ db with
        graph_nodes := db.graph_nodes ++
          [{ id := db.nextId, node_type := p.node_type, value := p.value,
             label := p.label, first_seen := now, last_seen := now,
             session_ids := p.session_ids, event_ids := p.event_ids }],
        nextId := db.nextId + 1 }, db.nextId)

/-- `Database.save_graph_edge`: insert, or on
`(source_id, target_id, relation)` conflict advance `last_seen`, add
`count + 1` and `weight + 1`, and overwrite the id lists. -/
def save_graph_edge (db : DB) (now : Int) (p : EdgeProp) : DB :=
  if db.graph_edges.any (fun r =>
      r.source_id = p.source_id ∧ r.target_id = p.target_id ∧
      r.relation = p.relation) then
    { db with graph_edges := db.graph_edges.map (fun q =>
        if q.source_id = p.source_id ∧ q.target_id = p.target_id ∧
            q.relation = p.relation then
          { q with last_seen := now, count := q.count + 1,
                   session_ids := p.session_ids, event_ids := p.event_ids,
                   weight := q.weight + 1 }
        else q) }
  else
    { db with
        graph_edges := db.graph_edges ++
          [{ id := db.nextId, source_id := p.source_id,
             target_id := p.target_id, relation := p.relation,
             first_seen := now, last_seen := now,
             session_ids := p.session_ids, event_ids := p.event_ids }],
        nextId := db.nextId + 1 }

/-- One upsert of the graph builder.  An edge names its endpoints by
their `(node_type, value)` identity; the builder in the source uses the
effective id returned by the preceding node upsert, which is exactly the
id that identity resolves to at that point. -/
inductive GOp where
  | gnode (node_type : NodeType) (label : String) (value : String)
  | gedge (srcType : NodeType) (srcValue : String)
          (tgtType : NodeType) (tgtValue : String) (relation : EdgeRelation)
deriving DecidableEq, Repr

/-- Effective id of the node with the given identity, if present. -/
def resolveNode (db : DB) (t : NodeType) (v : String) : Option Nat :=
  (db.graph_nodes.find? (fun r => r.node_type = t ∧ r.value = v)).map
    (fun r => r.id)

/-- Execute one builder upsert against the store; the builder constructs
every proposal with `session_ids=[sid]` and `event_ids=[eid]`. -/
def execOp (now : Int) (sid : String) (eid : Nat) (db : DB) : GOp → DB
  | .gnode t lbl v =>
    (save_graph_node db now
      { node_type := t, label := lbl, value := v,
        session_ids := [sid], event_ids := [eid] }).1
  | .gedge st sv tt tv rel =>
    match resolveNode db st sv, resolveNode db tt tv with
    | some s, some t =>
      save_graph_edge db now
        { source_id := s, target_id := t, relation := rel,
          session_ids := [sid], event_ids := [eid] }
    | _, _ => db

/-- Execute a builder script left to right. -/
def execScript (now : Int) (sid : String) (eid : Nat) (db : DB)
    (ops : List GOp) : DB :=
  ops.foldl (execOp now sid eid) db

/-- The upsert script `Engine._build_graph` performs for one enriched
event: session node; tool node and USES edge; direct tool→file edges
when the event has no commands; per command a command-group node, a
process node, EXECUTES edges and role-specific process→file edges from
the parsed file references; per URL a url node connected from every
process (or from the tool/session when there is none). -/
def graphScript (tf : TextFuns) (e : Event) : List GOp :=
  let sid := e.session_id
  let tn := e.tool_name.getD ""
  let sessionOps : List GOp := [.gnode .session (sid.take 16) sid]
  let toolOps : List GOp :=
    if tn ≠ "" then
      [.gnode .tool tn (tn ++ ":" ++ sid),
       .gedge .session sid .tool (tn ++ ":" ++ sid) .uses]
    else []
  let parentType : NodeType := if tn ≠ "" then .tool else .session
  let parentValue : String := if tn ≠ "" then tn ++ ":" ++ sid else sid
  let fileOps : List GOp :=
    if e.commands = [] then
      e.file_paths.flatMap (fun fp =>
        let lbl := if basename fp ≠ "" then basename fp else fp
        let rel : EdgeRelation :=
          if e.category = .file_write then .writes
          else if e.category = .file_delete then .deletes
          else .reads
        [.gnode .file lbl fp,
         .gedge parentType parentValue .file fp rel])
    else []
  let cmdOps : List GOp :=
    e.commands.flatMap (fun cmd =>
      let base := basename ((pyTokens cmd).headD "unknown")
      let gval := "cmdgroup:" ++ base ++ ":" ++ sid
      let short := cmd.take 60 ++ (if cmd.length > 60 then "..." else "")
      [.gnode .command base gval,
       .gedge parentType parentValue .command gval .executes,
       .gnode .process short cmd,
       .gedge .command gval .process cmd .executes]
      ++ (tf.findFileRefs cmd).flatMap (fun ref =>
        let lbl := if basename ref.1 ≠ "" then basename ref.1 else ref.1
        let rel : EdgeRelation :=
          if ref.2 = "writes" then .writes
          else if ref.2 = "executes" then .executes
          else .reads
        [.gnode .file lbl ref.1,
         .gedge .process cmd .file ref.1 rel]))
  let urlOps : List GOp :=
    e.urls.flatMap (fun url =>
      let domain := tf.hostname url
      .gnode .url domain url ::
      (if e.commands ≠ [] then
        e.commands.map (fun cmd => .gedge .process cmd .url url .connects_to)
      else
        [.gedge parentType parentValue .url url .connects_to]))
  sessionOps ++ toolOps ++ fileOps ++ cmdOps ++ urlOps

/-- `Engine._build_graph` as the execution of its upsert script. -/
def build_graph (tf : TextFuns) (now : Int) (e : Event) (db : DB) : DB :=
  execScript now e.session_id e.id db (graphScript tf e)

/-- JSON string escaping for quote and backslash (what `json.dumps`
applies to the ids stored in `session_ids`). -/
def jsonEscape (s : String) : String :=
  ⟨s.data.flatMap (fun c =>
    if c = Char.ofNat 92 then [Char.ofNat 92, Char.ofNat 92]
    else if c = Char.ofNat 34 then [Char.ofNat 92, Char.ofNat 34]
    else [c])⟩

/-- `json.dumps` of a list of strings, as stored in the
`session_ids` column. -/
def jsonDumps (l : List String) : String :=
  "[" ++ joinComma (l.map (fun s => "\"" ++ jsonEscape s ++ "\"")) ++ "]"

/-- SQLite `column LIKE '%pat%'`: substring containment after folding
ASCII case on both sides. -/
def likeContains (text pat : String) : Bool :=
  substrContains (lowerStr text) (lowerStr pat)

/-- Stable insertion into a list sorted by `access_count` descending. -/
def insertByAccessDesc (n : NodeRow) : List NodeRow → List NodeRow
  | [] => [n]
  | x :: xs => if n.access_count ≤ x.access_count then
                 x :: insertByAccessDesc n xs
               else n :: x :: xs

/-- Stable sort by `access_count` descending (`ORDER BY access_count
DESC`). -/
def sortByAccessDesc : List NodeRow → List NodeRow
  | [] => []
  | x :: xs => insertByAccessDesc x (sortByAccessDesc xs)

/-- `Database.get_session_graph`: nodes whose `session_ids` JSON matches
`LIKE '%"<id>"%'` ordered by access count, plus every edge with source
or target among those nodes. -/
def get_session_graph (db : DB) (session_id : String) :
    List NodeRow × List EdgeRow :=
  let nodes := sortByAccessDesc (db.graph_nodes.filter (fun n =>
    likeContains (jsonDumps n.session_ids) ("\"" ++ session_id ++ "\"")))
  let edges :=
    if nodes ≠ [] then
      let node_ids := nodes.map (fun n => n.id)
      db.graph_edges.filter (fun ed =>
        node_ids.contains ed.source_id || node_ids.contains ed.target_id)
    else []
  (nodes, edges)

/-- One timeline bucket. -/
structure TimelinePoint where
  timestamp : Int
  events : Nat
  alerts : Nat
deriving DecidableEq, Repr

/-- The payload `get_timeline_stats` returns. -/
structure TimelineResult where
  points : List TimelinePoint
  total_events : Nat
  total_alerts : Nat
  interval : String
deriving DecidableEq, Repr

/-- `MAX_TIMELINE_BUCKETS`. -/
def MAX_TIMELINE_BUCKETS : Nat := 500

/-- `interval_seconds.get(interval, 3600)`. -/
def intervalSeconds (interval : String) : Int :=
  if interval = "minute" then 60
  else if interval = "hour" then 3600
  else if interval = "day" then 86400
  else 3600

/-- The interval auto-upgrade at the top of `get_timeline_stats`:
when the estimated bucket count exceeds the cap, minute upgrades to
hour and anything still over the cap becomes day. -/
def upgradeInterval (range_seconds : Int) (interval : String) : String :=
  if range_seconds > 500 * intervalSeconds interval then
    if interval = "minute" then
      if range_seconds > 500 * 3600 then "day" else "hour"
    else "day"
  else interval

/-- Bucket of a stored timestamp under the grouping `strftime` format
(minute, day, hour otherwise), as the truncated time it renders. -/
def bucketOf (interval : String) (t : Int) : Int :=
  if interval = "minute" then t - t.emod 60
  else if interval = "day" then t - t.emod 86400
  else t - t.emod 3600

/-- Bucket label the generation loop renders for the running time
(minute, hour, day otherwise). -/
def bucketLabelOf (interval : String) (t : Int) : Int :=
  if interval = "minute" then t - t.emod 60
  else if interval = "hour" then t - t.emod 3600
  else t - t.emod 86400

/-- The loop step `timedelta` (minute, day, hour otherwise). -/
def deltaOf (interval : String) : Int :=
  if interval = "minute" then 60
  else if interval = "day" then 86400
  else 3600

/-- Truncation of `from_date` to the loop start: seconds always zeroed,
minutes zeroed for hour, hours and minutes zeroed for day. -/
def truncStart (interval : String) (t : Int) : Int :=
  if interval = "hour" then t - t.emod 3600
  else if interval = "day" then t - t.emod 86400
  else t - t.emod 60

/-- The bucket generation loop: emit `current` while `current ≤ to`,
stepping by `delta`, stopping after the fuel (the hard bucket cap) is
spent. -/
def bucketLoop (to_date delta : Int) : Int → Nat → List Int
  | _, 0 => []
  | current, Nat.succ fuel =>
    if current ≤ to_date then
      current :: bucketLoop to_date delta (current + delta) fuel
    else []

/-- `Database._get_session_ids_for_endpoint`. -/
def get_session_ids_for_endpoint (db : DB) (endpoint : String) : List String :=
  (db.sessions.filter (fun s => s.endpoint_hostname = some endpoint)).map
    (fun s => s.session_id)

/-- `Database.get_timeline_stats`: upgrade the interval against the
500-bucket cap, filter events and alerts to the range (and the optional
session / endpoint restriction, the endpoint one short-circuiting to an
empty timeline when the hostname has no sessions), then zero-fill
buckets from the truncated start, hard-capped at 500 points. -/
def get_timeline_stats (db : DB) (from_date to_date : Int) (interval : String)
    (session_id : Option String) (endpoint : Option String) : TimelineResult :=
  let range_seconds := to_date - from_date
  let interval := upgradeInterval range_seconds interval
  let epIds : Option (List String) :=
    match endpoint, session_id with
    | some h, none => some (get_session_ids_for_endpoint db h)
    | _, _ => none
  if epIds = some [] then
    { points := [], total_events := 0, total_alerts := 0, interval := interval }
  else
    let keep : String → Bool := fun sId =>
      (match session_id with | some s => sId = s | none => true) &&
      (match epIds with | some l => l.contains sId | none => true)
    let evs := db.events.filter (fun ev =>
      from_date ≤ ev.timestamp ∧ ev.timestamp ≤ to_date ∧ keep ev.session_id)
    let als := db.alerts.filter (fun a =>
      from_date ≤ a.created_at ∧ a.created_at ≤ to_date ∧ keep a.session_id)
    let delta := deltaOf interval
    let start := truncStart interval from_date
    let times := bucketLoop to_date delta start MAX_TIMELINE_BUCKETS
    { points := times.map (fun t =>
        { timestamp := t
          events := evs.countP (fun ev =>
            bucketOf interval ev.timestamp = bucketLabelOf interval t)
          alerts := als.countP (fun a =>
            bucketOf interval a.created_at = bucketLabelOf interval t) })
      total_events := evs.length
      total_alerts := als.length
      interval := interval }

/-- Modelled from the spec: "a `command` whose first tokens are a known
network utility" — one of the first two whitespace tokens is a known
network utility name (refinement counterpart of `is_network_command`). -/
def specIsNetworkCommandFirstTokens (command : String) : Bool :=
  ((pyTokens command).take 2).any (fun t => networkCommands.contains t)

/-- Decimal parse of a nonempty digit string (`int(s)` when it applies). -/
def decNat? (s : String) : Option Nat :=
  if s.data ≠ [] ∧ s.data.all (fun c => c.isDigit) then
    some (s.data.foldl (fun n c => n * 10 + (c.toNat - 48)) 0)
  else none

/-- Modelled from the spec: an IPv4 literal that is private (RFC 1918)
or loopback (refinement counterpart of the prefix test in
`_compute_event_risk`). -/
def isPrivateOrLoopbackIPv4 (ip : String) : Bool :=
  match (splitOnC '.' ip).map decNat? with
  | [some a, some b, some c, some d] =>
    a ≤ 255 && b ≤ 255 && c ≤ 255 && d ≤ 255 &&
    (a = 10 || a = 127 || (a = 172 && 16 ≤ b && b ≤ 31) || (a = 192 && b = 168))
  | _ => false

/-- The first enabled BLOCK policy that matches (the policy
`evaluate_pre_tool`'s loop stops at). -/
def firstBlockMatch (tf : TextFuns) (ps : List Policy) (d : EventData) :
    Option Policy :=
  ps.find? (fun p => decide (p.action = .block) && policy_matches tf p d)

/-- One `track_event` call's arguments. -/
structure TrackInput where
  event_id : Nat
  session_id : String
  timestamp : Int
  event_data : EventData
deriving Repr

/-- Run a list of `track_event` calls, collecting every fired
`(rule_id, session_id)` pair in order. -/
def runTrack (tf : TextFuns) (st : TrackerState) :
    List TrackInput → TrackerState × List (String × String)
  | [] => (st, [])
  | i :: is =>
    let r := track_event tf st i.event_id i.session_id i.timestamp i.event_data
    let rest := runTrack tf r.2 is
    (rest.1, r.1.map (fun m => (m.1.id, i.session_id)) ++ rest.2)

/-- A trivial instantiation of the abstract text primitives: no regex
ever matches and the extractions are empty. -/
def tfTrivial : TextFuns :=
  { search := fun _ _ => false
    searchCI := fun _ _ => false
    findPaths := fun _ => []
    findUrls := fun _ => []
    findIps := fun _ => []
    findFileRefs := fun _ => []
    hostname := fun u => u }

/-- Concrete event for the classifier claim: an unmapped tool whose
command is `hostname` (first token is no network utility, but the
substring test sees `host`). -/
def evC3 : Event :=
  { id := 1, session_id := "s1", timestamp := 0, hook_type := "PreToolUse",
    tool_name := some "CustomTool",
    tool_input := some [("command", "hostname")] }

/-- Concrete catch-all blocking policy (enabled, no conditions). -/
def pC1 : Policy :=
  { id := 1, name := "NoNet", action := .block, severity := .high }

/-- Engine state holding one session row and the blocking policy. -/
def stC1 : EngineState :=
  { db := { sessions := [{ session_id := "s1" }] }, policies := [pC1] }

/-- Concrete pre-tool event for the blocking claim. -/
def evC1 : Event :=
  { id := 7, session_id := "s1", timestamp := 0, hook_type := "PreToolUse",
    tool_name := some "Bash",
    tool_input := some [("command", "rm -rf /tmp")] }

/-- Concrete event for the risk claim: only one extracted IPv4, the
public address 172.5.0.1 (outside RFC 1918's 172.16/12). -/
def evC6 : Event :=
  { id := 2, session_id := "s1", timestamp := 0, hook_type := "PostToolUse",
    ip_addresses := ["172.5.0.1"] }

/-- A one-step sequence rule matching every event (no category filter,
no field patterns). -/
def ruleC4 : SequenceRule :=
  { id := "R1", name := "any event", steps := [{ label := "any" }] }

/-- Tracker preloaded with the catch-all rule. -/
def stC4 : TrackerState := { rules := [ruleC4] }

/-- Two events of one session, each of which satisfies the rule. -/
def insC4 : List TrackInput :=
  [{ event_id := 1, session_id := "sA", timestamp := 0, event_data := [] },
   { event_id := 2, session_id := "sA", timestamp := 10, event_data := [] }]

/-- A two-step ordered rule: a `first` category event then a `second`
category event. -/
def ruleC5 : SequenceRule :=
  { id := "R5", name := "two steps",
    steps := [{ label := "one", categories := ["first"] },
              { label := "two", categories := ["second"] }],
    time_window_seconds := 300, ordered := true }

/-- Tracker state whose session buffer holds the two step events in the
wrong order: the `second` step's event at time 1, the `first` step's
event at time 2. -/
def stC5 : TrackerState :=
  { rules := [ruleC5],
    buffers := [("sB",
      [{ event_id := 1, timestamp := 1, data := [("category", .vStr "second")] },
       { event_id := 2, timestamp := 2, data := [("category", .vStr "first")] }])] }

/-- A one-step rule over category `x` with a 300-second window. -/
def ruleC5b : SequenceRule :=
  { id := "R5b", name := "one step",
    steps := [{ label := "one", categories := ["x"] }],
    time_window_seconds := 300 }

/-- Tracker whose only buffered event matches `ruleC5b` but is far older
than the window. -/
def stC5b : TrackerState :=
  { rules := [ruleC5b],
    buffers := [("sC",
      [{ event_id := 9, timestamp := 0, data := [("category", .vStr "x")] }])] }

/-- Text functions for the graph witness: the command writes one file
and the URL resolves to a hostname. -/
def tfC7 : TextFuns :=
  { tfTrivial with
    findFileRefs := fun _ => [("/tmp/x.sh", "writes")]
    hostname := fun _ => "example.com" }

/-- Concrete enriched event for the graph claims. -/
def evC7 : Event :=
  { id := 3, session_id := "s3", timestamp := 0, hook_type := "PostToolUse",
    tool_name := some "Bash",
    category := .command_exec,
    commands := ["curl -o /tmp/x.sh https://example.com/x"],
    file_paths := ["/tmp/x.sh"],
    urls := ["https://example.com/x"] }

/-- The store after one run of the graph builder on `evC7`. -/
def dbC7a : DB := build_graph tfC7 0 evC7 {}

/-- The store after a second run of the graph builder on `evC7`. -/
def dbC7b : DB := build_graph tfC7 1 evC7 dbC7a

/-- Graph store for the session-graph claim: one node of session s1, one
node of session S1 (same letters, different case), and one edge from the
first node to an id outside the store. -/
def dbC9 : DB :=
  { graph_nodes :=
      [{ id := 1, node_type := .file, value := "f1", label := "f1",
         first_seen := 0, last_seen := 0, session_ids := ["s1"] },
       { id := 2, node_type := .file, value := "f2", label := "f2",
         first_seen := 0, last_seen := 0, session_ids := ["S1"] }],
    graph_edges :=
      [{ id := 5, source_id := 1, target_id := 99, relation := .reads,
         first_seen := 0, last_seen := 0, session_ids := ["s1"] }] }

/-- Node-row identity skeleton: id plus the `(node_type, value)` key. -/
def nodeSkel (db : DB) : List (Nat × NodeType × String) :=
  db.graph_nodes.map (fun r => (r.id, r.node_type, r.value))

/-- Edge-row identity skeleton: id plus the
`(source_id, target_id, relation)` key. -/
def edgeSkel (db : DB) : List (Nat × Nat × Nat × EdgeRelation) :=
  db.graph_edges.map (fun r => (r.id, r.source_id, r.target_id, r.relation))

/-- Between two runs, a node row may only advance `last_seen` and grow
`access_count`/`size`; identity and every other field are fixed. -/
def NodeBump (r q : NodeRow) : Prop :=
  q.id = r.id ∧ q.node_type = r.node_type ∧ q.value = r.value ∧
  q.label = r.label ∧ q.first_seen = r.first_seen ∧
  q.alert_count = r.alert_count ∧ q.session_ids = r.session_ids ∧
  q.event_ids = r.event_ids ∧
  r.access_count ≤ q.access_count ∧ r.size ≤ q.size ∧
  r.last_seen ≤ q.last_seen

/-- Between two runs, an edge row may only advance `last_seen` and grow
`count`/`weight`; identity and every other field are fixed. -/
def EdgeBump (r q : EdgeRow) : Prop :=
  q.id = r.id ∧ q.source_id = r.source_id ∧ q.target_id = r.target_id ∧
  q.relation = r.relation ∧ q.first_seen = r.first_seen ∧
  q.session_ids = r.session_ids ∧ q.event_ids = r.event_ids ∧
  r.count ≤ q.count ∧ r.weight ≤ q.weight ∧
  r.last_seen ≤ q.last_seen

/-- At most one node row per `(node_type, value)` key. -/
def UniqueNodeKeys (db : DB) : Prop :=
  db.graph_nodes.Pairwise (fun a b =>
    ¬(a.node_type = b.node_type ∧ a.value = b.value))

/-- At most one edge row per `(source_id, target_id, relation)` key. -/
def UniqueEdgeKeys (db : DB) : Prop :=
  db.graph_edges.Pairwise (fun a b =>
    ¬(a.source_id = b.source_id ∧ a.target_id = b.target_id ∧
      a.relation = b.relation))

/-- All stored graph timestamps are at or before the given time. -/
def SeenBefore (db : DB) (now : Int) : Prop :=
  (∀ r ∈ db.graph_nodes, r.last_seen ≤ now) ∧
  (∀ r ∈ db.graph_edges, r.last_seen ≤ now)

/-- A session table with one active session, for concrete checks. -/
def dbW : DB := { sessions := [{ session_id := "s1" }] }

/-- A node of the given identity exists in the store. -/
def nodePresent (db : DB) (t : NodeType) (v : String) : Prop :=
  ∃ r ∈ db.graph_nodes, r.node_type = t ∧ r.value = v

/-- Every node row of the given identity carries exactly this event's
id lists (what a completed first run leaves behind). -/
def NodeGood (sid : String) (eid : Nat) (db : DB) (t : NodeType) (v : String)
    : Prop :=
  nodePresent db t v ∧
  ∀ r ∈ db.graph_nodes, r.node_type = t ∧ r.value = v →
    r.session_ids = [sid] ∧ r.event_ids = [eid]

/-- Same for an edge key. -/
def EdgeGood (sid : String) (eid : Nat) (db : DB) (a b : Nat)
    (rel : EdgeRelation) : Prop :=
  (∃ r ∈ db.graph_edges,
      r.source_id = a ∧ r.target_id = b ∧ r.relation = rel) ∧
  ∀ r ∈ db.graph_edges, r.source_id = a ∧ r.target_id = b ∧ r.relation = rel →
    r.session_ids = [sid] ∧ r.event_ids = [eid]

/-- An upsert is ready when its identity already exists in the store
with this event's id lists: replaying it can only bump counters. -/
def OpReady (sid : String) (eid : Nat) (db : DB) : GOp → Prop
  | .gnode t _ v => NodeGood sid eid db t v
  | .gedge st sv tt tv rel =>
    ∃ a b, resolveNode db st sv = some a ∧ resolveNode db tt tv = some b ∧
      EdgeGood sid eid db a b rel

/-- Well-formedness of a builder script relative to a set `P` of node
identities already present: every edge's endpoints are in `P` or were
introduced by an earlier node op of the script. -/
def ScriptOk (P : NodeType → String → Prop) : List GOp → Prop
  | [] => True
  | .gnode t _ v :: rest =>
    ScriptOk (fun t₂ v₂ => P t₂ v₂ ∨ (t₂ = t ∧ v₂ = v)) rest
  | .gedge st sv tt tv _ :: rest => P st sv ∧ P tt tv ∧ ScriptOk P rest

/-- The set of node identities present after a script's node ops. -/
def scriptPost (P : NodeType → String → Prop) : List GOp →
    NodeType → String → Prop
  | [] => P
  | .gnode t _ v :: rest =>
    scriptPost (fun t₂ v₂ => P t₂ v₂ ∨ (t₂ = t ∧ v₂ = v)) rest
  | .gedge _ _ _ _ _ :: rest => scriptPost P rest

/-! Helper lemmas shared by the claim theorems. -/

theorem forall₂_map_self {α : Type} (R : α → α → Prop) (f : α → α) :
    ∀ l : List α, (∀ x ∈ l, R x (f x)) → List.Forall₂ R l (l.map f) := by
  intro l
  induction l with
  | nil => intro _; exact List.Forall₂.nil
  | cons x xs ih =>
    intro h
    exact List.Forall₂.cons (h x (List.mem_cons_self x xs))
      (ih fun y hy => h y (List.mem_cons_of_mem x hy))

theorem forall₂_self {α : Type} (R : α → α → Prop) :
    ∀ l : List α, (∀ x ∈ l, R x x) → List.Forall₂ R l l := by
  intro l
  induction l with
  | nil => intro _; exact List.Forall₂.nil
  | cons x xs ih =>
    intro h
    exact List.Forall₂.cons (h x (List.mem_cons_self x xs))
      (ih fun y hy => h y (List.mem_cons_of_mem x hy))

theorem forall₂_trans {α : Type} (R : α → α → Prop)
    (ht : ∀ a b c, R a b → R b c → R a c) :
    ∀ l₁ l₂ l₃ : List α, List.Forall₂ R l₁ l₂ → List.Forall₂ R l₂ l₃ →
      List.Forall₂ R l₁ l₃ := by
  intro l₁ l₂ l₃ h₁₂
  induction h₁₂ generalizing l₃ with
  | nil => intro h; cases h; exact List.Forall₂.nil
  | cons hab _ ih =>
    intro h
    cases h with
    | cons hbc htail => exact List.Forall₂.cons (ht _ _ _ hab hbc) (ih _ htail)

theorem foldl_no_add {β : Type} (g : Nat → β → Nat) :
    ∀ (l : List β) (acc : Nat), (∀ acc₂ x, x ∈ l → g acc₂ x = acc₂) →
      l.foldl g acc = acc := by
  intro l
  induction l with
  | nil => intro acc _; rfl
  | cons x xs ih =>
    intro acc h
    rw [List.foldl_cons, h acc x (List.mem_cons_self x xs)]
    exact ih acc fun a y hy => h a y (List.mem_cons_of_mem x hy)

/-! ### C10 — event-count increment reopens the session -/

/-- C10: `increment_session_event_count` not only adds one to
`event_count` but also sets the status back to `active` and clears
`ended_at`; consequently recording a new event for an ended session
silently reopens it. -/
theorem c10_event_count_reopens (db : DB) (sid : String) (t : Int) :
    List.Forall₂ (fun r q =>
        (r.session_id = sid →
          q = { r with event_count := r.event_count + 1,
                       status := "active", ended_at := none }) ∧
        (r.session_id ≠ sid → q = r))
      db.sessions (increment_session_event_count db sid).sessions ∧
    ∀ q ∈ (increment_session_event_count (end_session db t sid) sid).sessions,
      q.session_id = sid → q.status = "active" ∧ q.ended_at = none := by
  constructor
  · refine forall₂_map_self _ _ _ (fun r _ => ?_)
    constructor <;> intro h <;> simp [h]
  · intro q hq hsid
    simp only [increment_session_event_count, List.mem_map] at hq
    obtain ⟨r, _, rfl⟩ := hq
    by_cases h : r.session_id = sid
    · simp [h]
    · simp only [if_neg h] at hsid ⊢
      exact absurd hsid h

/-- C10 witness: the single session of `dbW`, ended at time 5 and then
hit by one more event, is back to an open active row. -/
theorem c10_witness :
    ({ session_id := "s1", event_count := 1 } : SessionRow).status =
      "active" ∧
    ({ session_id := "s1", event_count := 1 } : SessionRow).ended_at =
      none :=
  (c10_event_count_reopens dbW "s1" 5).2
    { session_id := "s1", event_count := 1 } (by decide) (by decide)

/-! ### C3 — command classification -/

/-- C3 counterexample: the event `evC3` satisfies the claim's
preconditions (unmapped tool, a `command` key, no `file_path`/`path`),
its command's first tokens are no known network utility, yet
`classify_event` returns network_access — because `_is_network_command`
is a substring test and `hostname` contains `host`. -/
theorem c3_counterexample :
    classify_event evC3 = .network_access ∧
    specIsNetworkCommandFirstTokens "hostname" = false ∧
    (evC3.tool_input.getD []).lookup "command" = some "hostname" ∧
    TOOL_CATEGORY_MAP.lookup (evC3.tool_name.getD "") = none ∧
    hasKey (evC3.tool_input.getD []) "file_path" = false ∧
    hasKey (evC3.tool_input.getD []) "path" = false := by decide

/-- C3 (amended): for an unmapped tool whose input has a `command` key
and no `file_path`/`path` key, classification is network_access exactly
when the lowercased command contains a known network utility name as a
substring (not when its first tokens are one), and command_exec
otherwise. -/
theorem c3_command_classification (e : Event) (cmd : String)
    (hmap : e.tool_name.getD "" = "" ∨
      TOOL_CATEGORY_MAP.lookup (e.tool_name.getD "") = none)
    (hcmd : (e.tool_input.getD []).lookup "command" = some cmd)
    (hfp : hasKey (e.tool_input.getD []) "file_path" = false)
    (hp : hasKey (e.tool_input.getD []) "path" = false) :
    classify_event e =
      (if is_network_command cmd then .network_access else .command_exec) ∧
    (is_network_command cmd = true ↔
      ∃ u ∈ networkCommands, substrContains (lowerStr cmd) u = true) := by
  constructor
  · have hkey : hasKey (e.tool_input.getD []) "command" = true := by
      simp [hasKey, hcmd]
    have hget : getD (e.tool_input.getD []) "command" = cmd := by
      simp [getD, hcmd]
    unfold classify_event
    rcases hmap with h | h
    · simp [h, hfp, hp, hkey, hget]
    · by_cases h0 : e.tool_name.getD "" = ""
      · simp [h0, hfp, hp, hkey, hget]
      · simp [h0, h, hfp, hp, hkey, hget]
  · simp [is_network_command, List.any_eq_true]

/-- C3 witness: the amended classification applied to `evC3`. -/
theorem c3_witness :
    classify_event evC3 =
      (if is_network_command "hostname" then EventCategory.network_access
       else EventCategory.command_exec) :=
  (c3_command_classification evC3 "hostname" (Or.inr (by decide)) (by decide)
    (by decide) (by decide)).1

/-! ### C1 / C2 — the synchronous pre-tool path -/

theorem preToolLoop_frame (tf : TextFuns) (e : Event) :
    ∀ (ps : List Policy) (db : DB) (bl : List Alert),
      (preToolLoop tf e db bl ps).2.1.graph_nodes = db.graph_nodes ∧
      (preToolLoop tf e db bl ps).2.1.graph_edges = db.graph_edges ∧
      (preToolLoop tf e db bl ps).2.1.events = db.events ∧
      (preToolLoop tf e db bl ps).2.1.sessions.map
          (fun s => (s.session_id, s.risk_score)) =
        db.sessions.map (fun s => (s.session_id, s.risk_score)) := by
  intro ps
  induction ps with
  | nil => intro db bl; exact ⟨rfl, rfl, rfl, rfl⟩
  | cons p rest ih =>
    intro db bl
    by_cases h : p.action = .block ∧ policy_matches tf p (event_to_dict e) = true
    · simp only [preToolLoop, h, and_self, if_pos]
      refine ⟨rfl, rfl, rfl, ?_⟩
      simp only [increment_session_alert_count, save_alert, List.map_map]
      apply List.map_congr_left
      intro s _
      by_cases hs : s.session_id = e.session_id <;> simp [hs]
    · rw [preToolLoop, if_neg (by simpa using h)]
      exact ih db bl

/-- C2: `evaluate_pre_tool` touches nothing but the alert store, the
session alert counters and the broadcast log — it never enqueues, never
feeds the sequence tracker, never creates graph nodes or edges, and
never changes any session's risk score. -/
theorem c2_pre_tool_frame (tf : TextFuns) (st : EngineState) (e : Event) :
    (evaluate_pre_tool tf st e).2.queue = st.queue ∧
    (evaluate_pre_tool tf st e).2.tracker = st.tracker ∧
    (evaluate_pre_tool tf st e).2.db.graph_nodes = st.db.graph_nodes ∧
    (evaluate_pre_tool tf st e).2.db.graph_edges = st.db.graph_edges ∧
    (evaluate_pre_tool tf st e).2.db.events = st.db.events ∧
    (evaluate_pre_tool tf st e).2.db.sessions.map
        (fun s => (s.session_id, s.risk_score)) =
      st.db.sessions.map (fun s => (s.session_id, s.risk_score)) := by
  have h := preToolLoop_frame tf (classify tf (enrich tf e)) st.policies
    st.db st.broadcast_alerts
  exact ⟨rfl, rfl, h.1, h.2.1, h.2.2.1, h.2.2.2⟩

theorem preToolLoop_spec (tf : TextFuns) (e₁ : Event) :
    ∀ (ps : List Policy) (db : DB) (bl : List Alert),
      (ps.find? (fun p => decide (p.action = .block) &&
          policy_matches tf p (event_to_dict e₁)) = none →
        preToolLoop tf e₁ db bl ps = ({ allow := true }, db, bl)) ∧
      (∀ p, ps.find? (fun p => decide (p.action = .block) &&
          policy_matches tf p (event_to_dict e₁)) = some p →
        ∃ a : Alert,
          (preToolLoop tf e₁ db bl ps).1.allow = false ∧
          (preToolLoop tf e₁ db bl ps).1.reason =
            some ("Blocked by policy: " ++ p.name) ∧
          (preToolLoop tf e₁ db bl ps).1.alert_id = some a.id ∧
          (preToolLoop tf e₁ db bl ps).2.1.alerts = db.alerts ++ [a] ∧
          (preToolLoop tf e₁ db bl ps).2.2 = bl ++ [a] ∧
          a.blocked = true ∧ a.event_ids = [e₁.id] ∧
          a.severity = p.severity ∧ a.session_id = e₁.session_id ∧
          a.policy_id = some p.id ∧ a.evidence ≠ [] ∧
          List.Forall₂ (fun r q =>
              (r.session_id = e₁.session_id →
                q = { r with alert_count := r.alert_count + 1 }) ∧
              (r.session_id ≠ e₁.session_id → q = r))
            db.sessions (preToolLoop tf e₁ db bl ps).2.1.sessions) := by
  intro ps
  induction ps with
  | nil =>
    intro db bl
    exact ⟨fun _ => rfl, fun p h => by simp at h⟩
  | cons p rest ih =>
    intro db bl
    by_cases hc : p.action = .block ∧ policy_matches tf p (event_to_dict e₁) = true
    · have hpred : (decide (p.action = .block) &&
          policy_matches tf p (event_to_dict e₁)) = true := by
        simp [hc.1, hc.2]
      constructor
      · intro hnone
        simp only [List.find?, hpred] at hnone
        exact absurd hnone (Option.some_ne_none p)
      · intro q hq
        simp only [List.find?, hpred, Option.some.injEq] at hq
        cases hq
        simp only [preToolLoop]
        rw [if_pos hc]
        refine ⟨_, rfl, rfl, rfl, ?_, rfl, rfl, rfl, rfl, rfl, rfl, ?_, ?_⟩
        · simp [increment_session_alert_count, save_alert]
        · simp [add_evidence]
        · simp only [increment_session_alert_count, save_alert]
          refine forall₂_map_self _ _ _ (fun r _ => ?_)
          constructor <;> intro h <;> simp [h]
    · have hpred : (decide (p.action = .block) &&
          policy_matches tf p (event_to_dict e₁)) = false := by
        rcases Decidable.not_and_iff_or_not.mp hc with h | h
        · simp [h]
        · simp [Bool.eq_false_iff.mpr h]
      have hloop : preToolLoop tf e₁ db bl (p :: rest) =
          preToolLoop tf e₁ db bl rest := by
        rw [preToolLoop, if_neg (by simpa using hc)]
      constructor
      · intro hnone
        simp only [List.find?, hpred] at hnone
        rw [hloop]
        exact (ih db bl).1 hnone
      · intro q hq
        simp only [List.find?, hpred] at hq
        rw [hloop]
        exact (ih db bl).2 q hq

/-- C1 counterexample: with a matching enabled BLOCK policy named
`NoNet`, the decision's reason is the string `Blocked by policy: NoNet`,
not the policy name itself as the claim states. -/
theorem c1_counterexample :
    firstBlockMatch tfTrivial stC1.policies
      (event_to_dict (classify tfTrivial (enrich tfTrivial evC1))) =
        some pC1 ∧
    (evaluate_pre_tool tfTrivial stC1 evC1).1.allow = false ∧
    (evaluate_pre_tool tfTrivial stC1 evC1).1.reason ≠ some pC1.name := by
  decide

/-- C1 (amended): on the first enabled BLOCK policy that matches the
enriched, classified event, `evaluate_pre_tool` persists exactly one new
alert — blocked, carrying the denied event's id, with the policy's
severity — increments the session's alert counter, records the
broadcast, and denies with reason `"Blocked by policy: " ++ policy.name`
and the alert's id; with no matching BLOCK policy it allows and leaves
the state untouched. -/
theorem c1_block_decision (tf : TextFuns) (st : EngineState) (e : Event) :
    (firstBlockMatch tf st.policies
        (event_to_dict (classify tf (enrich tf e))) = none →
      (evaluate_pre_tool tf st e).1 = { allow := true } ∧
      (evaluate_pre_tool tf st e).2 = st) ∧
    (∀ p, firstBlockMatch tf st.policies
        (event_to_dict (classify tf (enrich tf e))) = some p →
      (evaluate_pre_tool tf st e).1.allow = false ∧
      (evaluate_pre_tool tf st e).1.reason =
        some ("Blocked by policy: " ++ p.name) ∧
      ∃ a : Alert,
        (evaluate_pre_tool tf st e).1.alert_id = some a.id ∧
        (evaluate_pre_tool tf st e).2.db.alerts = st.db.alerts ++ [a] ∧
        (evaluate_pre_tool tf st e).2.broadcast_alerts =
          st.broadcast_alerts ++ [a] ∧
        a.blocked = true ∧ a.event_ids = [e.id] ∧ e.id ∈ a.event_ids ∧
        a.severity = p.severity ∧ a.session_id = e.session_id ∧
        a.policy_id = some p.id ∧ a.evidence ≠ [] ∧
        List.Forall₂ (fun r q =>
            (r.session_id = e.session_id →
              q = { r with alert_count := r.alert_count + 1 }) ∧
            (r.session_id ≠ e.session_id → q = r))
          st.db.sessions (evaluate_pre_tool tf st e).2.db.sessions) := by
  have h := preToolLoop_spec tf (classify tf (enrich tf e)) st.policies
    st.db st.broadcast_alerts
  have hid : (classify tf (enrich tf e)).id = e.id := rfl
  have hsid : (classify tf (enrich tf e)).session_id = e.session_id := rfl
  constructor
  · intro hnone
    have h0 := h.1 hnone
    constructor
    · show (preToolLoop tf (classify tf (enrich tf e)) st.db
        st.broadcast_alerts st.policies).1 = { allow := true }
      rw [h0]
    · show ({ st with
          db := (preToolLoop tf (classify tf (enrich tf e)) st.db
            st.broadcast_alerts st.policies).2.1,
          broadcast_alerts := (preToolLoop tf (classify tf (enrich tf e))
            st.db st.broadcast_alerts st.policies).2.2 } : EngineState) = st
      rw [h0]
  · intro p hp
    obtain ⟨a, h1, h2, h3, h4, h5, h6, h7, h8, h9, h10, h11, h12⟩ := h.2 p hp
    refine ⟨h1, h2, a, h3, h4, h5, h6, ?_, ?_, h8, ?_, h10, h11, ?_⟩
    · rw [hid] at h7; exact h7
    · rw [hid] at h7; rw [h7]; exact List.mem_singleton.mpr rfl
    · rw [hsid] at h9; exact h9
    · rw [hsid] at h12; exact h12

/-- C1 witness: the amended blocking behaviour on the concrete state
`stC1` and pre-tool event `evC1`. -/
theorem c1_witness :
    (evaluate_pre_tool tfTrivial stC1 evC1).1.allow = false ∧
    (evaluate_pre_tool tfTrivial stC1 evC1).1.reason =
      some ("Blocked by policy: " ++ pC1.name) :=
  ⟨((c1_block_decision tfTrivial stC1 evC1).2 pC1 (by decide)).1,
   ((c1_block_decision tfTrivial stC1 evC1).2 pC1 (by decide)).2.1⟩

/-! ### C6 — content risk and the session risk score -/

theorem foldl_flat_weight (cond : String → Bool) :
    ∀ (ips : List String) (acc : Nat),
      ips.foldl (fun a ip => if cond ip then a else a + 6) acc =
        acc + 6 * ips.countP (fun ip => !cond ip) := by
  intro ips
  induction ips with
  | nil => intro acc; simp
  | cons ip rest ih =>
    intro acc
    by_cases h : cond ip = true
    · simp [List.foldl_cons, h, ih, List.countP_cons]
    · have h2 : cond ip = false := by simpa using h
      simp [List.foldl_cons, h2, ih, List.countP_cons]
      ring

/-- C6 counterexample: the public IPv4 `172.5.0.1` (neither private nor
loopback) contributes nothing, because the source's prefix test treats
every `172.*` address as internal — the claimed equation fails. -/
theorem c6_counterexample :
    compute_event_risk tfTrivial evC6 ≠
      compute_event_risk tfTrivial { evC6 with ip_addresses := [] } +
        6 * (evC6.ip_addresses.countP
              (fun ip => !(isPrivateOrLoopbackIPv4 ip))) := by decide

/-- C6 (amended): content risk is the pattern-match sum plus a flat 6
per extracted IPv4 that does not start with one of the prefixes `127.`,
`0.`, `10.`, `192.168.`, `172.` (not: per non-private, non-loopback
address); an event none of whose content matches any signal scores
exactly zero; and the engine only ever increments the session's
risk_score by the event's risk, and only when it is nonzero. -/
theorem c6_risk_additivity (tf : TextFuns) (e : Event) (db : DB) :
    (compute_event_risk tf e =
      compute_event_risk tf { e with ip_addresses := [] } +
        6 * (e.ip_addresses.countP (fun ip =>
              !(riskIpPrefixes.any (fun pre => startsWithStr ip pre))))) ∧
    ((∀ fp ∈ e.file_paths, ∀ p ∈ FILE_RISK_SIGNALS,
        tf.searchCI p.1 fp = false) →
      (∀ c ∈ e.commands, ∀ p ∈ CMD_RISK_SIGNALS, tf.searchCI p.1 c = false) →
      (∀ p ∈ SEARCH_RISK_SIGNALS,
        tf.searchCI p.1 (getD (e.tool_input.getD []) "pattern") = false) →
      (∀ u ∈ e.urls, ∀ p ∈ URL_RISK_SIGNALS,
        (if p.2.2 then tf.searchCI p.1 u else tf.search p.1 u) = false) →
      (∀ ip ∈ e.ip_addresses,
        riskIpPrefixes.any (fun pre => startsWithStr ip pre) = true) →
      compute_event_risk tf e = 0) ∧
    (compute_event_risk tf e = 0 → update_risk_score tf db e = db) ∧
    List.Forall₂ (fun r q =>
        (r.session_id = e.session_id →
          q.risk_score = r.risk_score + compute_event_risk tf e) ∧
        (r.session_id ≠ e.session_id → q = r))
      db.sessions (update_risk_score tf db e).sessions := by
  refine ⟨?_, ?_, ?_, ?_⟩
  · simp only [compute_event_risk]
    rw [foldl_flat_weight]
    rfl
  · intro hf hc hs hu hip
    simp only [compute_event_risk]
    rw [foldl_no_add _ _ _ (fun acc ip hipm => by rw [hip ip hipm]; rfl)]
    rw [foldl_no_add _ _ _ (fun acc u hum => ?_)]
    rotate_left
    · have : URL_RISK_SIGNALS.find?
          (fun p => if p.2.2 then tf.searchCI p.1 u else tf.search p.1 u) =
            none :=
        List.find?_eq_none.mpr (fun p hp => by simp [hu u hum p hp])
      simp [this]
    split
    · rw [foldl_no_add _ _ _ (fun acc p hp => by rw [hs p hp]; rfl)]
      rw [foldl_no_add _ _ _ (fun acc c hcm => ?_)]
      rotate_left
      · exact foldl_no_add _ _ _ (fun a p hp => by rw [hc c hcm p hp]; rfl)
      rw [foldl_no_add _ _ _ (fun acc fp hfm => ?_)]
      have : FILE_RISK_SIGNALS.find? (fun p => tf.searchCI p.1 fp) = none :=
        List.find?_eq_none.mpr (fun p hp => by simp [hf fp hfm p hp])
      simp [this]
    · rw [foldl_no_add _ _ _ (fun acc c hcm => ?_)]
      rotate_left
      · exact foldl_no_add _ _ _ (fun a p hp => by rw [hc c hcm p hp]; rfl)
      rw [foldl_no_add _ _ _ (fun acc fp hfm => ?_)]
      have : FILE_RISK_SIGNALS.find? (fun p => tf.searchCI p.1 fp) = none :=
        List.find?_eq_none.mpr (fun p hp => by simp [hf fp hfm p hp])
      simp [this]
  · intro h0
    simp [update_risk_score, h0]
  · by_cases h0 : compute_event_risk tf e > 0
    · simp only [update_risk_score, if_pos h0, increment_session_risk_score]
      refine forall₂_map_self _ _ _ (fun r _ => ?_)
      constructor <;> intro h <;> simp [h]
    · have hz : compute_event_risk tf e = 0 := by omega
      simp only [update_risk_score, if_neg h0]
      refine forall₂_self _ _ (fun r _ => ?_)
      exact ⟨fun _ => by simp [hz], fun _ => rfl⟩

/-- C6 witness: the amended equation and no-match zero at `evC6`. -/
theorem c6_witness :
    compute_event_risk tfTrivial evC6 =
      compute_event_risk tfTrivial { evC6 with ip_addresses := [] } +
        6 * (evC6.ip_addresses.countP (fun ip =>
              !(riskIpPrefixes.any (fun pre => startsWithStr ip pre)))) ∧
    compute_event_risk tfTrivial evC6 = 0 :=
  ⟨(c6_risk_additivity tfTrivial evC6 {}).1,
   (c6_risk_additivity tfTrivial evC6 {}).2.1
     (by intro fp h; cases h) (by intro c h; cases h)
     (by intro p _; rfl) (by intro u h; cases h) (by decide)⟩

/-! ### C4 — sequence deduplication and session reset -/

theorem trl_count_zero (tf : TextFuns) (st : TrackerState) (sid : String)
    (now : Int) :
    ∀ (rules : List SequenceRule) (fired : List (String × String))
      (key : String × String), key ∈ fired →
      ((trackRulesLoop tf st sid now rules fired).1.map
        (fun m => (m.1.id, sid))).count key = 0 := by
  intro rules
  induction rules with
  | nil => intro fired key _; rfl
  | cons rule rest ih =>
    intro fired key hk
    simp only [trackRulesLoop]
    cases h : check_rule tf st rule sid now with
    | none => exact ih fired key hk
    | some result =>
      by_cases hf : (rule.id, sid) ∈ fired
      · simp only [if_pos hf]
        exact ih fired key hk
      · simp only [if_neg hf]
        have hne : ((rule.id, sid) : String × String) ≠ key := by
          intro hEq; exact hf (hEq ▸ hk)
        rw [List.map_cons, List.count_cons]
        have : key ∈ fired ++ [(rule.id, sid)] := List.mem_append_left _ hk
        rw [ih (fired ++ [(rule.id, sid)]) key this]
        simp [hne]

theorem trl_fired_mono (tf : TextFuns) (st : TrackerState) (sid : String)
    (now : Int) :
    ∀ (rules : List SequenceRule) (fired : List (String × String))
      (key : String × String), key ∈ fired →
      key ∈ (trackRulesLoop tf st sid now rules fired).2 := by
  intro rules
  induction rules with
  | nil => intro fired key hk; exact hk
  | cons rule rest ih =>
    intro fired key hk
    simp only [trackRulesLoop]
    cases h : check_rule tf st rule sid now with
    | none => exact ih fired key hk
    | some result =>
      by_cases hf : (rule.id, sid) ∈ fired
      · simp only [if_pos hf]; exact ih fired key hk
      · simp only [if_neg hf]
        exact ih (fired ++ [(rule.id, sid)]) key (List.mem_append_left _ hk)

theorem trl_count_le_one (tf : TextFuns) (st : TrackerState) (sid : String)
    (now : Int) :
    ∀ (rules : List SequenceRule) (fired : List (String × String))
      (key : String × String),
      ((trackRulesLoop tf st sid now rules fired).1.map
        (fun m => (m.1.id, sid))).count key ≤ 1 ∧
      (key ∈ (trackRulesLoop tf st sid now rules fired).1.map
        (fun m => (m.1.id, sid)) →
        key ∈ (trackRulesLoop tf st sid now rules fired).2) ∧
      (key ∈ (trackRulesLoop tf st sid now rules fired).2 →
        key ∈ fired ∨ key ∈ (trackRulesLoop tf st sid now rules fired).1.map
          (fun m => (m.1.id, sid))) := by
  intro rules
  induction rules with
  | nil =>
    intro fired key
    simp only [trackRulesLoop]
    exact ⟨by simp, by simp, fun h => Or.inl h⟩
  | cons rule rest ih =>
    intro fired key
    simp only [trackRulesLoop]
    cases h : check_rule tf st rule sid now with
    | none => exact ih fired key
    | some result =>
      by_cases hf : (rule.id, sid) ∈ fired
      · simp only [if_pos hf]; exact ih fired key
      · simp only [if_neg hf]
        have hmono := trl_fired_mono tf st sid now rest
          (fired ++ [(rule.id, sid)]) (rule.id, sid)
          (List.mem_append_right _ (List.mem_singleton.mpr rfl))
        by_cases hkey : key = ((rule.id, sid) : String × String)
        · subst hkey
          refine ⟨?_, ?_, ?_⟩
          · rw [List.map_cons, List.count_cons]
            rw [trl_count_zero tf st sid now rest (fired ++ [(rule.id, sid)])
              _ (List.mem_append_right _ (List.mem_singleton.mpr rfl))]
            simp
          · intro _; exact hmono
          · intro _; right; rw [List.map_cons]; exact List.mem_cons_self _ _
        · have hne : ((rule.id, sid) : String × String) ≠ key :=
            fun hEq => hkey hEq.symm
          obtain ⟨ih1, ih2, ih3⟩ := ih (fired ++ [(rule.id, sid)]) key
          refine ⟨?_, ?_, ?_⟩
          · rw [List.map_cons, List.count_cons]
            simpa [hne] using ih1
          · intro hm
            rw [List.map_cons] at hm
            rcases List.mem_cons.mp hm with hEq | hm₂
            · exact absurd hEq.symm hne
            · exact ih2 hm₂
          · intro hm
            rcases ih3 hm with hIn | hIn
            · rcases List.mem_append.mp hIn with hIn₂ | hIn₂
              · exact Or.inl hIn₂
              · right
                rw [List.map_cons]
                rw [List.mem_singleton.mp hIn₂]
                exact List.mem_cons_self _ _
            · right; rw [List.map_cons]; exact List.mem_cons_of_mem _ hIn

theorem track_event_spec (tf : TextFuns) (st : TrackerState) (eid : Nat)
    (sid : String) (ts : Int) (d : EventData) (key : String × String) :
    (key ∈ st.fired →
      ((track_event tf st eid sid ts d).1.map
        (fun m => (m.1.id, sid))).count key = 0) ∧
    ((track_event tf st eid sid ts d).1.map
        (fun m => (m.1.id, sid))).count key ≤ 1 ∧
    (key ∈ (track_event tf st eid sid ts d).1.map (fun m => (m.1.id, sid)) →
      key ∈ (track_event tf st eid sid ts d).2.fired) ∧
    (key ∈ (track_event tf st eid sid ts d).2.fired →
      key ∈ st.fired ∨
      key ∈ (track_event tf st eid sid ts d).1.map (fun m => (m.1.id, sid))) ∧
    (key ∈ st.fired → key ∈ (track_event tf st eid sid ts d).2.fired) := by
  simp only [track_event]
  refine ⟨?_, ?_, ?_, ?_, ?_⟩
  · intro hk; exact trl_count_zero tf _ sid ts _ st.fired key hk
  · exact (trl_count_le_one tf _ sid ts _ st.fired key).1
  · exact (trl_count_le_one tf _ sid ts _ st.fired key).2.1
  · exact (trl_count_le_one tf _ sid ts _ st.fired key).2.2
  · intro hk; exact trl_fired_mono tf _ sid ts _ st.fired key hk

theorem runTrack_count_zero (tf : TextFuns) :
    ∀ (ins : List TrackInput) (st : TrackerState) (key : String × String),
      key ∈ st.fired → ((runTrack tf st ins).2).count key = 0 := by
  intro ins
  induction ins with
  | nil => intro st key _; rfl
  | cons i rest ih =>
    intro st key hk
    have hs := track_event_spec tf st i.event_id i.session_id i.timestamp
      i.event_data key
    simp only [runTrack, List.count_append]
    rw [hs.1 hk, ih _ key (hs.2.2.2.2 hk)]

theorem runTrack_count_le_one (tf : TextFuns) :
    ∀ (ins : List TrackInput) (st : TrackerState) (key : String × String),
      key ∉ st.fired → ((runTrack tf st ins).2).count key ≤ 1 := by
  intro ins
  induction ins with
  | nil => intro st key _; simp [runTrack]
  | cons i rest ih =>
    intro st key hk
    have hs := track_event_spec tf st i.event_id i.session_id i.timestamp
      i.event_data key
    simp only [runTrack, List.count_append]
    by_cases hm : key ∈ (track_event tf st i.event_id i.session_id
        i.timestamp i.event_data).1.map (fun m => (m.1.id, i.session_id))
    · have hz := runTrack_count_zero tf rest _ key (hs.2.2.1 hm)
      have hle := hs.2.1
      omega
    · have hc0 : ((track_event tf st i.event_id i.session_id i.timestamp
          i.event_data).1.map (fun m => (m.1.id, i.session_id))).count key = 0 :=
        List.count_eq_zero.mpr hm
      have hnf : key ∉ (track_event tf st i.event_id i.session_id i.timestamp
          i.event_data).2.fired := by
        intro hIn
        rcases hs.2.2.2.1 hIn with h | h
        · exact hk h
        · exact hm h
      have := ih _ key hnf
      omega

theorem lookup_filter_ne_none {β : Type} (sid : String) :
    ∀ l : List (String × β),
      (l.filter (fun b => b.1 ≠ sid)).lookup sid = none := by
  intro l
  induction l with
  | nil => rfl
  | cons b rest ih =>
    obtain ⟨k, v⟩ := b
    simp only [List.filter_cons]
    by_cases h : k = sid
    · rw [if_neg (by simp [h])]
      exact ih
    · rw [if_pos (by simp [h])]
      simp only [List.lookup]
      have hbe : (sid == k) = false := by
        simp
        exact fun hEq => h hEq.symm
      rw [hbe]
      exact ih

theorem lookup_filter_ne_other {β : Type} (sid s₂ : String) (hne : s₂ ≠ sid) :
    ∀ l : List (String × β),
      (l.filter (fun b => b.1 ≠ sid)).lookup s₂ = l.lookup s₂ := by
  intro l
  induction l with
  | nil => rfl
  | cons b rest ih =>
    obtain ⟨k, v⟩ := b
    simp only [List.filter_cons]
    by_cases h : k = sid
    · have hbe : (s₂ == k) = false := by
        simp
        intro hEq; exact hne (by rw [hEq, h])
      rw [if_neg (by simp [h])]
      simp only [List.lookup, hbe]
      exact ih
    · rw [if_pos (by simp [h])]
      simp only [List.lookup]
      cases hbe : (s₂ == k) with
      | true => rfl
      | false => exact ih

/-- C4: the tracker returns a match for a `(rule_id, session_id)` pair at
most once over any sequence of tracked events — and not at all if the
pair is already in the fired set — while `reset_session` removes exactly
that session's buffer and fired entries, leaving other sessions
untouched. -/
theorem c4_sequence_dedup (tf : TextFuns) (st : TrackerState)
    (ins : List TrackInput) (rid sid : String) :
    ((rid, sid) ∉ st.fired →
      ((runTrack tf st ins).2).count (rid, sid) ≤ 1) ∧
    ((rid, sid) ∈ st.fired →
      ((runTrack tf st ins).2).count (rid, sid) = 0) ∧
    (reset_session st sid).buffers.lookup sid = none ∧
    (∀ s₂, s₂ ≠ sid →
      (reset_session st sid).buffers.lookup s₂ = st.buffers.lookup s₂) ∧
    (reset_session st sid).fired = st.fired.filter (fun k => k.2 ≠ sid) := by
  refine ⟨fun h => runTrack_count_le_one tf ins st _ h,
    fun h => runTrack_count_zero tf ins st _ h, ?_, ?_, rfl⟩
  · exact lookup_filter_ne_none sid st.buffers
  · intro s₂ h2
    exact lookup_filter_ne_other sid s₂ h2 st.buffers

/-- C4 witness: two qualifying events in one session fire the catch-all
rule exactly once. -/
theorem c4_witness :
    ((runTrack tfTrivial stC4 insC4).2).count ("R1", "sA") = 1 ∧
    ((runTrack tfTrivial stC4 insC4).2).count ("R1", "sA") ≤ 1 :=
  ⟨by decide, (c4_sequence_dedup tfTrivial stC4 insC4 "R1" "sA").1 (by decide)⟩

/-! ### C5 — window and ordering behaviour of sequence rules -/

theorem mem_insertByTs (e x : BufferedEvent) :
    ∀ l : List BufferedEvent, x ∈ insertByTs e l ↔ x = e ∨ x ∈ l := by
  intro l
  induction l with
  | nil => simp [insertByTs]
  | cons y ys ih =>
    simp only [insertByTs]
    split
    · simp only [List.mem_cons, ih]
      tauto
    · simp only [List.mem_cons]

theorem mem_sortByTs (x : BufferedEvent) :
    ∀ l : List BufferedEvent, x ∈ sortByTs l ↔ x ∈ l := by
  intro l
  induction l with
  | nil => simp [sortByTs]
  | cons y ys ih =>
    simp only [sortByTs]
    rw [mem_insertByTs]
    simp [ih]

theorem fomGo_sound :
    ∀ (ls : List (List BufferedEvent)) (last : Option Int)
      (evs : List BufferedEvent), fomGo last ls = some evs →
      List.Chain' (fun a b => a.timestamp ≤ b.timestamp) evs ∧
      (∀ e ∈ evs, ∃ m ∈ ls, e ∈ m) ∧
      (∀ t, last = some t → ∀ e ∈ evs, t ≤ e.timestamp) := by
  intro ls
  induction ls with
  | nil =>
    intro last evs h
    simp only [fomGo] at h
    cases h
    exact ⟨List.chain'_nil, by simp, by simp⟩
  | cons ms rest ih =>
    intro last evs h
    simp only [fomGo] at h
    cases hf : (sortByTs ms).find?
        (fun e => match last with
                  | none => true
                  | some t => t ≤ e.timestamp) with
    | none => rw [hf] at h; cases h
    | some e =>
      rw [hf] at h
      dsimp only at h
      cases hg : fomGo (some e.timestamp) rest with
      | none => rw [hg] at h; cases h
      | some evs' =>
        rw [hg] at h
        simp only [Option.map_some'] at h
        cases h
        obtain ⟨hch, hmem, hge⟩ := ih (some e.timestamp) evs' hg
        have hme : e ∈ ms :=
          (mem_sortByTs e ms).mp (List.mem_of_find?_eq_some hf)
        refine ⟨?_, ?_, ?_⟩
        · rw [List.chain'_cons']
          exact ⟨fun b hb => hge e.timestamp rfl b (List.mem_of_mem_head? hb),
            hch⟩
        · intro x hx
          rcases List.mem_cons.mp hx with rfl | hx₂
          · exact ⟨ms, List.mem_cons_self _ _,
              (mem_sortByTs x ms).mp (List.mem_of_find?_eq_some hf)⟩
          · obtain ⟨m, hm, hxm⟩ := hmem x hx₂
            exact ⟨m, List.mem_cons_of_mem _ hm, hxm⟩
        · intro t ht x hx
          subst ht
          have hpe := List.find?_some hf
          simp only [decide_eq_true_eq] at hpe
          rcases List.mem_cons.mp hx with rfl | hx₂
          · exact hpe
          · exact le_trans hpe (hge e.timestamp rfl x hx₂)

theorem sml_sound (tf : TextFuns) (window : List BufferedEvent) :
    ∀ (steps : List SequenceStep) (ls : List (List BufferedEvent)),
      step_match_lists tf window steps = some ls →
      ∀ m ∈ ls, m ≠ [] ∧ ∀ e ∈ m, e ∈ window := by
  intro steps
  induction steps with
  | nil =>
    intro ls h
    simp only [step_match_lists] at h
    cases h
    simp
  | cons s ss ih =>
    intro ls h
    simp only [step_match_lists] at h
    split at h
    · cases h
    · cases hg : step_match_lists tf window ss with
      | none => rw [hg] at h; cases h
      | some rest =>
        rw [hg] at h
        simp only [Option.map_some'] at h
        cases h
        intro m hm
        rcases List.mem_cons.mp hm with rfl | hm₂
        · refine ⟨by assumption, fun e he => ?_⟩
          exact List.mem_of_mem_filter he
        · exact ih rest hg m hm₂

theorem sml_none (tf : TextFuns) (window : List BufferedEvent) :
    ∀ (steps : List SequenceStep) (s : SequenceStep), s ∈ steps →
      window.filter (fun e => matches_step tf s e.data) = [] →
      step_match_lists tf window steps = none := by
  intro steps
  induction steps with
  | nil => intro s h; cases h
  | cons s₀ ss ih =>
    intro s hs hfil
    simp only [step_match_lists]
    rcases List.mem_cons.mp hs with rfl | hs₂
    · rw [if_pos hfil]
    · split
      · rfl
      · rw [ih s hs₂ hfil]
        rfl

/-- C5: a sequence rule never fires on events outside its time window —
every matched event's timestamp is at or after `now − window`, and a
step whose only buffered matches are older than the window blocks the
rule — and ordering is respected: an ordered rule only returns events
with non-decreasing timestamps (greedy earliest-first scan), so the
out-of-order buffer of `stC5` does not fire the ordered rule while the
identical rule with `ordered := false` does fire. -/
theorem c5_sequence_window_order (tf : TextFuns) (st : TrackerState)
    (rule : SequenceRule) (sid : String) (now : Int) :
    (∀ evs, check_rule tf st rule sid now = some evs →
      (∀ e ∈ evs, now - rule.time_window_seconds ≤ e.timestamp) ∧
      (rule.ordered = true →
        List.Chain' (fun a b => a.timestamp ≤ b.timestamp) evs)) ∧
    (∀ step buf, step ∈ rule.steps →
      st.buffers.lookup sid = some buf →
      (∀ e ∈ buf, matches_step tf step e.data = true →
        e.timestamp < now - rule.time_window_seconds) →
      check_rule tf st rule sid now = none) ∧
    check_rule tfTrivial stC5 ruleC5 "sB" 2 = none ∧
    check_rule tfTrivial stC5 { ruleC5 with ordered := false } "sB" 2 =
      some [{ event_id := 2, timestamp := 2,
              data := [("category", Value.vStr "first")] },
            { event_id := 1, timestamp := 1,
              data := [("category", Value.vStr "second")] }] := by
  refine ⟨?_, ?_, by decide, by decide⟩
  · intro evs h
    simp only [check_rule] at h
    cases hb : st.buffers.lookup sid with
    | none => rw [hb] at h; cases h
    | some buf =>
      rw [hb] at h
      dsimp only at h
      split at h
      · cases h
      · split at h
        · cases h
        · cases hs : step_match_lists tf
              (List.filter (fun e =>
                decide (now - rule.time_window_seconds ≤ e.timestamp)) buf)
              rule.steps with
          | none => rw [hs] at h; cases h
          | some ls =>
            rw [hs] at h
            dsimp only at h
            have hin : ∀ e ∈ evs,
                e ∈ List.filter (fun e₂ =>
                  decide (now - rule.time_window_seconds ≤ e₂.timestamp)) buf := by
              intro e he
              split at h
              · obtain ⟨_, hmem, _⟩ := fomGo_sound ls none evs h
                obtain ⟨m, hm, hem⟩ := hmem e he
                exact ((sml_sound tf _ rule.steps ls hs) m hm).2 e hem
              · cases h
                obtain ⟨m, hm, rfl⟩ := List.mem_map.mp he
                have hne := ((sml_sound tf _ rule.steps ls hs) m hm).1
                have : m.headD ⟨0, 0, []⟩ ∈ m := by
                  cases m with
                  | nil => exact absurd rfl hne
                  | cons a l => exact List.mem_cons_self a l
                exact ((sml_sound tf _ rule.steps ls hs) m hm).2 _ this
            constructor
            · intro e he
              have := List.mem_filter.mp (hin e he)
              simpa using this.2
            · intro hord
              rw [hord] at h
              exact (fomGo_sound ls none evs h).1
  · intro step buf hstep hb hstale
    simp only [check_rule, hb]
    split
    · rfl
    · split
      · rfl
      · have hfil : (buf.filter (fun e =>
            now - rule.time_window_seconds ≤ e.timestamp)).filter
              (fun e => matches_step tf step e.data) = [] := by
          rw [List.filter_eq_nil_iff]
          intro e he hm
          have hmem := List.mem_filter.mp he
          have hcut : now - rule.time_window_seconds ≤ e.timestamp := by
            simpa using hmem.2
          have := hstale e hmem.1 hm
          omega
        rw [sml_none tf _ rule.steps step hstep hfil]

/-- C5 witness: the stale one-event buffer of `stC5b` (timestamp 0, far
outside the 300-second window at now = 400) does not fire its rule. -/
theorem c5_witness :
    check_rule tfTrivial stC5b ruleC5b "sC" 400 = none :=
  (c5_sequence_window_order tfTrivial stC5b ruleC5b "sC" 400).2.1
    { label := "one", categories := ["x"] }
    [{ event_id := 9, timestamp := 0, data := [("category", .vStr "x")] }]
    (by decide) (by decide) (by decide)

/-! ### C8 — timeline bucket cap, interval upgrade, zero-fill -/

theorem bucketLoop_length (to_date delta : Int) :
    ∀ (fuel : Nat) (current : Int),
      (bucketLoop to_date delta current fuel).length ≤ fuel := by
  intro fuel
  induction fuel with
  | zero => intro c; simp [bucketLoop]
  | succ f ih =>
    intro c
    simp only [bucketLoop]
    split
    · simpa using ih (c + delta)
    · simp

theorem bucketLoop_mem (to_date delta : Int) (hδ : 0 ≤ delta) :
    ∀ (fuel : Nat) (current : Int) (k : Nat), k < fuel →
      current + delta * k ≤ to_date →
      current + delta * k ∈ bucketLoop to_date delta current fuel := by
  intro fuel
  induction fuel with
  | zero => intro c k hk; omega
  | succ f ih =>
    intro c k hk hle
    have hnn : 0 ≤ delta * (k : Int) :=
      mul_nonneg hδ (by exact_mod_cast Nat.zero_le k)
    have hcle : c ≤ to_date := by omega
    simp only [bucketLoop, if_pos hcle]
    cases k with
    | zero => simp
    | succ j =>
      have heq : c + delta * ((j + 1 : Nat) : Int) =
          (c + delta) + delta * (j : Int) := by
        push_cast
        ring
      rw [List.mem_cons]
      right
      rw [heq]
      rw [heq] at hle
      exact ih (c + delta) j (by omega) hle

theorem deltaOf_nonneg (interval : String) : 0 ≤ deltaOf interval := by
  unfold deltaOf
  split
  · omega
  · split <;> omega

theorem timeline_interval_eq (db : DB) (from_date to_date : Int)
    (interval : String) (session_id endpoint : Option String) :
    (get_timeline_stats db from_date to_date interval session_id
      endpoint).interval = upgradeInterval (to_date - from_date) interval := by
  simp only [get_timeline_stats]
  split
  · rfl
  · rfl

/-- C8: `get_timeline_stats` returns at most 500 points; an over-cap
range upgrades the interval minute→hour→day and the response reflects
the upgraded interval; and (without an endpoint filter) every bucket of
the range below the hard cap is present, with zero counts when no stored
event or alert falls in it. -/
theorem c8_timeline_cap (db : DB) (from_date to_date : Int)
    (interval : String) (session_id endpoint : Option String) :
    (get_timeline_stats db from_date to_date interval session_id
      endpoint).points.length ≤ 500 ∧
    (to_date - from_date ≤ 500 * intervalSeconds interval →
      (get_timeline_stats db from_date to_date interval session_id
        endpoint).interval = interval) ∧
    (interval = "minute" → to_date - from_date > 500 * 60 →
      to_date - from_date ≤ 500 * 3600 →
      (get_timeline_stats db from_date to_date interval session_id
        endpoint).interval = "hour") ∧
    (interval = "minute" → to_date - from_date > 500 * 3600 →
      (get_timeline_stats db from_date to_date interval session_id
        endpoint).interval = "day") ∧
    (interval = "hour" → to_date - from_date > 500 * 3600 →
      (get_timeline_stats db from_date to_date interval session_id
        endpoint).interval = "day") ∧
    (endpoint = none → ∀ k : Nat, k < 500 →
      truncStart (upgradeInterval (to_date - from_date) interval) from_date +
        deltaOf (upgradeInterval (to_date - from_date) interval) * k ≤
          to_date →
      ∃ p ∈ (get_timeline_stats db from_date to_date interval session_id
          endpoint).points,
        p.timestamp =
          truncStart (upgradeInterval (to_date - from_date) interval)
              from_date +
            deltaOf (upgradeInterval (to_date - from_date) interval) * k ∧
        ((∀ ev ∈ db.events, ¬(from_date ≤ ev.timestamp ∧
            ev.timestamp ≤ to_date ∧
            bucketOf (upgradeInterval (to_date - from_date) interval)
                ev.timestamp =
              bucketLabelOf (upgradeInterval (to_date - from_date) interval)
                p.timestamp)) → p.events = 0) ∧
        ((∀ a ∈ db.alerts, ¬(from_date ≤ a.created_at ∧
            a.created_at ≤ to_date ∧
            bucketOf (upgradeInterval (to_date - from_date) interval)
                a.created_at =
              bucketLabelOf (upgradeInterval (to_date - from_date) interval)
                p.timestamp)) → p.alerts = 0)) := by
  refine ⟨?_, ?_, ?_, ?_, ?_, ?_⟩
  · simp only [get_timeline_stats]
    split
    · simp
    · simp only [List.length_map]
      exact bucketLoop_length _ _ _ _
  · intro h
    rw [timeline_interval_eq]
    simp only [upgradeInterval]
    rw [if_neg (by omega)]
  · intro h1 h2 h3
    rw [timeline_interval_eq]
    simp only [upgradeInterval, h1, intervalSeconds]
    rw [if_pos (by simp; omega), if_pos trivial, if_neg (by omega)]
  · intro h1 h2
    rw [timeline_interval_eq]
    simp only [upgradeInterval, h1, intervalSeconds]
    rw [if_pos (by simp; omega), if_pos trivial, if_pos (by omega)]
  · intro h1 h2
    rw [timeline_interval_eq]
    simp only [upgradeInterval, h1, intervalSeconds]
    rw [if_pos (by simp; omega), if_neg (by simp)]
  · intro hep k hk hle
    subst hep
    simp only [get_timeline_stats]
    rw [if_neg (by simp)]
    have hmem := bucketLoop_mem to_date
      (deltaOf (upgradeInterval (to_date - from_date) interval))
      (deltaOf_nonneg _) MAX_TIMELINE_BUCKETS
      (truncStart (upgradeInterval (to_date - from_date) interval) from_date)
      k hk hle
    refine ⟨_, List.mem_map.mpr ⟨_, hmem, rfl⟩, rfl, ?_, ?_⟩
    · intro hno
      apply List.countP_eq_zero.mpr
      intro ev hev
      have hm := List.mem_filter.mp hev
      simp only [decide_eq_true_eq] at hm
      simp only [decide_eq_true_eq]
      intro hbucket
      exact hno ev hm.1 ⟨hm.2.1, hm.2.2.1, hbucket⟩
    · intro hno
      apply List.countP_eq_zero.mpr
      intro a ha
      have hm := List.mem_filter.mp ha
      simp only [decide_eq_true_eq] at hm
      simp only [decide_eq_true_eq]
      intro hbucket
      exact hno a hm.1 ⟨hm.2.1, hm.2.2.1, hbucket⟩

/-- C8 witness: a 2-minute range at minute granularity in an empty store
keeps the interval and zero-fills the bucket at offset 1. -/
theorem c8_witness :
    (get_timeline_stats {} 0 120 "minute" none none).points.length ≤ 500 ∧
    (get_timeline_stats {} 0 120 "minute" none none).interval = "minute" :=
  ⟨(c8_timeline_cap {} 0 120 "minute" none none).1,
   (c8_timeline_cap {} 0 120 "minute" none none).2.1 (by decide)⟩

/-! ### C9 — the per-session graph query -/

theorem mem_insertByAccessDesc (e x : NodeRow) :
    ∀ l : List NodeRow, x ∈ insertByAccessDesc e l ↔ x = e ∨ x ∈ l := by
  intro l
  induction l with
  | nil => simp [insertByAccessDesc]
  | cons y ys ih =>
    simp only [insertByAccessDesc]
    split
    · simp only [List.mem_cons, ih]
      tauto
    · simp only [List.mem_cons]

theorem mem_sortByAccessDesc (x : NodeRow) :
    ∀ l : List NodeRow, x ∈ sortByAccessDesc l ↔ x ∈ l := by
  intro l
  induction l with
  | nil => simp [sortByAccessDesc]
  | cons y ys ih =>
    simp only [sortByAccessDesc]
    rw [mem_insertByAccessDesc]
    simp [ih]

theorem escape_map_clean :
    ∀ l : List Char, (∀ c ∈ l, c ≠ Char.ofNat 34 ∧ c ≠ Char.ofNat 92) →
      l.flatMap (fun c =>
        if c = Char.ofNat 92 then [Char.ofNat 92, Char.ofNat 92]
        else if c = Char.ofNat 34 then [Char.ofNat 92, Char.ofNat 34]
        else [c]) = l := by
  intro l
  induction l with
  | nil => intro _; rfl
  | cons c cs ih =>
    intro h
    rw [List.flatMap_cons]
    rw [if_neg (h c (List.mem_cons_self c cs)).2]
    rw [if_neg (h c (List.mem_cons_self c cs)).1]
    rw [ih (fun x hx => h x (List.mem_cons_of_mem c hx))]
    rfl

theorem jsonEscape_clean (s : String)
    (h : ∀ c ∈ s.data, c ≠ Char.ofNat 34 ∧ c ≠ Char.ofNat 92) :
    jsonEscape s = s := by
  show String.mk (s.data.flatMap _) = s
  rw [escape_map_clean s.data h]

theorem joinComma_infix :
    ∀ (L : List String) (x : String), x ∈ L →
      x.data <:+: (joinComma L).data := by
  intro L
  induction L with
  | nil => intro x h; cases h
  | cons a rest ih =>
    intro x h
    cases rest with
    | nil =>
      have hx : x = a := by
        rcases List.mem_cons.mp h with hEq | hIn
        · exact hEq
        · cases hIn
      subst hx
      exact List.infix_rfl
    | cons b bs =>
      rcases List.mem_cons.mp h with hEq | hIn
      · subst hEq
        show _ <:+: (x ++ ", " ++ joinComma (b :: bs)).data
        rw [String.data_append, String.data_append]
        exact ((List.prefix_append _ _).trans
          (List.prefix_append _ _)).isInfix
      · have hi := ih x hIn
        show _ <:+: (a ++ ", " ++ joinComma (b :: bs)).data
        rw [String.data_append, String.data_append]
        exact hi.trans (List.suffix_append _ _).isInfix

theorem jsonDumps_contains (sid : String) (l : List String)
    (hclean : ∀ c ∈ sid.data, c ≠ Char.ofNat 34 ∧ c ≠ Char.ofNat 92)
    (hmem : sid ∈ l) :
    likeContains (jsonDumps l) ("\"" ++ sid ++ "\"") = true := by
  have hq : ("\"" ++ sid ++ "\"").data <:+: (jsonDumps l).data := by
    have hi := joinComma_infix
      (l.map (fun s => "\"" ++ jsonEscape s ++ "\""))
      ("\"" ++ jsonEscape sid ++ "\"")
      (List.mem_map.mpr ⟨sid, hmem, rfl⟩)
    rw [jsonEscape_clean sid hclean] at hi
    show _ <:+: ("[" ++ joinComma (l.map (fun s =>
      "\"" ++ jsonEscape s ++ "\"")) ++ "]").data
    rw [String.data_append, String.data_append]
    exact hi.trans (List.infix_append _ _ _)
  unfold likeContains substrContains
  apply decide_eq_true
  show (lowerStr ("\"" ++ sid ++ "\"")).data <:+: (lowerStr (jsonDumps l)).data
  exact hq.map lowChar

/-- C9 counterexample: querying `dbC9` for session `s1` returns the node
touched only by the differently-cased session `S1` (SQLite LIKE folds
case), and returns the edge whose target id 99 is outside the returned
node set — the claim's "exactly the nodes whose session_ids contains the
id" and "no edge with an endpoint outside the node set" both fail. -/
theorem c9_counterexample :
    ({ id := 2, node_type := .file, value := "f2", label := "f2",
       first_seen := 0, last_seen := 0,
       session_ids := ["S1"] } : NodeRow) ∈ (get_session_graph dbC9 "s1").1 ∧
    "s1" ∉ (["S1"] : List String) ∧
    ({ id := 5, source_id := 1, target_id := 99, relation := .reads,
       first_seen := 0, last_seen := 0,
       session_ids := ["s1"] } : EdgeRow) ∈ (get_session_graph dbC9 "s1").2 ∧
    ((get_session_graph dbC9 "s1").1.map (fun n => n.id)).contains 99 =
      false := by decide

/-- C9 (amended): `get_session_graph` returns the nodes whose stored
`session_ids` JSON contains the quoted session id as a case-insensitive
substring — in particular every node whose `session_ids` list contains
the id, when the id is free of quote and backslash characters — plus
exactly the edges at least one of whose endpoints is among those nodes. -/
theorem c9_session_graph (db : DB) (sid : String) :
    (∀ n, n ∈ (get_session_graph db sid).1 ↔
      n ∈ db.graph_nodes ∧
      likeContains (jsonDumps n.session_ids) ("\"" ++ sid ++ "\"") = true) ∧
    ((∀ c ∈ sid.data, c ≠ Char.ofNat 34 ∧ c ≠ Char.ofNat 92) →
      ∀ n ∈ db.graph_nodes, sid ∈ n.session_ids →
        n ∈ (get_session_graph db sid).1) ∧
    (∀ ed, ed ∈ (get_session_graph db sid).2 ↔
      ed ∈ db.graph_edges ∧ (get_session_graph db sid).1 ≠ [] ∧
      (((get_session_graph db sid).1.map (fun n => n.id)).contains
          ed.source_id = true ∨
       ((get_session_graph db sid).1.map (fun n => n.id)).contains
          ed.target_id = true)) := by
  have hnodes : ∀ n, n ∈ (get_session_graph db sid).1 ↔
      n ∈ db.graph_nodes ∧
      likeContains (jsonDumps n.session_ids) ("\"" ++ sid ++ "\"") = true := by
    intro n
    show n ∈ sortByAccessDesc _ ↔ _
    rw [mem_sortByAccessDesc]
    exact List.mem_filter
  refine ⟨hnodes, ?_, ?_⟩
  · intro hclean n hn hmem
    exact (hnodes n).mpr ⟨hn, jsonDumps_contains sid n.session_ids hclean hmem⟩
  · intro ed
    simp only [get_session_graph]
    split
    · rename_i hne
      rw [List.mem_filter]
      simp only [Bool.or_eq_true]
      constructor
      · rintro ⟨h1, h2⟩
        exact ⟨h1, hne, h2⟩
      · rintro ⟨h1, _, h2⟩
        exact ⟨h1, h2⟩
    · rename_i hne
      push_neg at hne
      simp only [List.not_mem_nil, false_iff]
      rintro ⟨_, habs, _⟩
      exact habs hne

/-- C9 witness: the amended characterization on `dbC9` — the node of
session `s1` is returned. -/
theorem c9_witness :
    ({ id := 1, node_type := .file, value := "f1", label := "f1",
       first_seen := 0, last_seen := 0,
       session_ids := ["s1"] } : NodeRow) ∈ (get_session_graph dbC9 "s1").1 :=
  (c9_session_graph dbC9 "s1").2.1 (by decide)
    { id := 1, node_type := .file, value := "f1", label := "f1",
      first_seen := 0, last_seen := 0, session_ids := ["s1"] }
    (by decide) (by decide)

/-! ### C7 — idempotent graph upserts -/

theorem nodeBump_refl (r : NodeRow) : NodeBump r r := by
  unfold NodeBump
  refine ⟨rfl, rfl, rfl, rfl, rfl, rfl, rfl, rfl, le_refl _, le_refl _,
    le_refl _⟩

theorem edgeBump_refl (r : EdgeRow) : EdgeBump r r := by
  unfold EdgeBump
  refine ⟨rfl, rfl, rfl, rfl, rfl, rfl, rfl, le_refl _, le_refl _, le_refl _⟩

theorem nodeBump_trans (a b c : NodeRow) (h₁ : NodeBump a b)
    (h₂ : NodeBump b c) : NodeBump a c := by
  obtain ⟨h1, h2, h3, h4, h5, h6, h7, h8, h9, h10, h11⟩ := h₁
  obtain ⟨g1, g2, g3, g4, g5, g6, g7, g8, g9, g10, g11⟩ := h₂
  exact ⟨g1.trans h1, g2.trans h2, g3.trans h3, g4.trans h4, g5.trans h5,
    g6.trans h6, g7.trans h7, g8.trans h8, h9.trans g9, h10.trans g10,
    h11.trans g11⟩

theorem edgeBump_trans (a b c : EdgeRow) (h₁ : EdgeBump a b)
    (h₂ : EdgeBump b c) : EdgeBump a c := by
  obtain ⟨h1, h2, h3, h4, h5, h6, h7, h8, h9, h10⟩ := h₁
  obtain ⟨g1, g2, g3, g4, g5, g6, g7, g8, g9, g10⟩ := h₂
  exact ⟨g1.trans h1, g2.trans h2, g3.trans h3, g4.trans h4, g5.trans h5,
    g6.trans h6, g7.trans h7, h8.trans g8, h9.trans g9, h10.trans g10⟩

theorem nodePresent_iff_find (db : DB) (t : NodeType) (v : String) :
    nodePresent db t v ↔
      (db.graph_nodes.find? (fun r => r.node_type = t ∧ r.value = v)).isSome := by
  rw [List.find?_isSome]
  unfold nodePresent
  constructor
  · rintro ⟨r, hr, h1, h2⟩
    exact ⟨r, hr, by simp [h1, h2]⟩
  · rintro ⟨r, hr, h⟩
    simp only [decide_eq_true_eq] at h
    exact ⟨r, hr, h⟩

theorem sgn_present (db : DB) (now : Int) (p : NodeProp)
    (h : nodePresent db p.node_type p.value) :
    (save_graph_node db now p).1.graph_nodes = db.graph_nodes.map (fun q =>
      if q.node_type = p.node_type ∧ q.value = p.value then
        { q with last_seen := now, access_count := q.access_count + 1,
                 session_ids := p.session_ids, event_ids := p.event_ids,
                 size := q.size + 1 }
      else q) ∧
    (save_graph_node db now p).1.graph_edges = db.graph_edges ∧
    (save_graph_node db now p).1.nextId = db.nextId ∧
    resolveNode db p.node_type p.value = some (save_graph_node db now p).2 := by
  have hf := (nodePresent_iff_find db p.node_type p.value).mp h
  cases hfind : db.graph_nodes.find?
      (fun r => r.node_type = p.node_type ∧ r.value = p.value) with
  | none => rw [hfind] at hf; cases hf
  | some r =>
    unfold save_graph_node
    rw [hfind]
    exact ⟨rfl, rfl, rfl, by unfold resolveNode; rw [hfind]; rfl⟩

theorem sgn_absent (db : DB) (now : Int) (p : NodeProp)
    (h : ¬ nodePresent db p.node_type p.value) :
    (save_graph_node db now p).1.graph_nodes = db.graph_nodes ++
      [{ id := db.nextId, node_type := p.node_type, value := p.value,
         label := p.label, first_seen := now, last_seen := now,
         session_ids := p.session_ids, event_ids := p.event_ids }] ∧
    (save_graph_node db now p).1.graph_edges = db.graph_edges ∧
    (save_graph_node db now p).1.nextId = db.nextId + 1 ∧
    (save_graph_node db now p).2 = db.nextId := by
  have hf : ¬ (db.graph_nodes.find?
      (fun r => r.node_type = p.node_type ∧ r.value = p.value)).isSome := by
    rw [← nodePresent_iff_find]; exact h
  cases hfind : db.graph_nodes.find?
      (fun r => r.node_type = p.node_type ∧ r.value = p.value) with
  | some r => rw [hfind] at hf; exact absurd rfl hf
  | none =>
    unfold save_graph_node
    rw [hfind]
    exact ⟨rfl, rfl, rfl, rfl⟩

theorem edgePresent_iff_any (db : DB) (a b : Nat) (rel : EdgeRelation) :
    (∃ r ∈ db.graph_edges,
        r.source_id = a ∧ r.target_id = b ∧ r.relation = rel) ↔
      (db.graph_edges.any (fun r =>
        r.source_id = a ∧ r.target_id = b ∧ r.relation = rel)) = true := by
  rw [List.any_eq_true]
  constructor
  · rintro ⟨r, hr, h1, h2, h3⟩
    exact ⟨r, hr, by simp [h1, h2, h3]⟩
  · rintro ⟨r, hr, h⟩
    simp only [decide_eq_true_eq] at h
    exact ⟨r, hr, h⟩

theorem sge_present (db : DB) (now : Int) (p : EdgeProp)
    (h : ∃ r ∈ db.graph_edges,
      r.source_id = p.source_id ∧ r.target_id = p.target_id ∧
      r.relation = p.relation) :
    (save_graph_edge db now p).graph_edges = db.graph_edges.map (fun q =>
      if q.source_id = p.source_id ∧ q.target_id = p.target_id ∧
          q.relation = p.relation then
        { q with last_seen := now, count := q.count + 1,
                 session_ids := p.session_ids, event_ids := p.event_ids,
                 weight := q.weight + 1 }
      else q) ∧
    (save_graph_edge db now p).graph_nodes = db.graph_nodes ∧
    (save_graph_edge db now p).nextId = db.nextId := by
  have ha := (edgePresent_iff_any db p.source_id p.target_id p.relation).mp h
  unfold save_graph_edge
  rw [if_pos ha]
  exact ⟨rfl, rfl, rfl⟩

theorem sge_absent (db : DB) (now : Int) (p : EdgeProp)
    (h : ¬ ∃ r ∈ db.graph_edges,
      r.source_id = p.source_id ∧ r.target_id = p.target_id ∧
      r.relation = p.relation) :
    (save_graph_edge db now p).graph_edges = db.graph_edges ++
      [{ id := db.nextId, source_id := p.source_id,
         target_id := p.target_id, relation := p.relation,
         first_seen := now, last_seen := now,
         session_ids := p.session_ids, event_ids := p.event_ids }] ∧
    (save_graph_edge db now p).graph_nodes = db.graph_nodes ∧
    (save_graph_edge db now p).nextId = db.nextId + 1 := by
  have ha : ¬ (db.graph_edges.any (fun r =>
      r.source_id = p.source_id ∧ r.target_id = p.target_id ∧
      r.relation = p.relation)) = true := by
    rw [← edgePresent_iff_any]; exact h
  unfold save_graph_edge
  rw [if_neg ha]
  exact ⟨rfl, rfl, rfl⟩

theorem execOp_ready_step (now2 : Int) (sid : String) (eid : Nat) (db : DB)
    (op : GOp) (hr : OpReady sid eid db op) (hs : SeenBefore db now2) :
    List.Forall₂ NodeBump db.graph_nodes
      (execOp now2 sid eid db op).graph_nodes ∧
    List.Forall₂ EdgeBump db.graph_edges
      (execOp now2 sid eid db op).graph_edges ∧
    SeenBefore (execOp now2 sid eid db op) now2 := by
  cases op with
  | gnode t lbl v =>
    obtain ⟨hp, hfields⟩ := hr
    obtain ⟨hnodes, hedges, _, _⟩ := sgn_present db now2
      { node_type := t, label := lbl, value := v,
        session_ids := [sid], event_ids := [eid] } hp
    simp only [execOp]
    refine ⟨?_, ?_, ?_⟩
    · rw [hnodes]
      refine forall₂_map_self _ _ _ (fun q hq => ?_)
      by_cases hk : q.node_type = t ∧ q.value = v
      · rw [if_pos hk]
        obtain ⟨hsid, heid⟩ := hfields q hq hk
        exact ⟨rfl, rfl, rfl, rfl, rfl, rfl, hsid.symm ▸ rfl, heid.symm ▸ rfl,
          Nat.le_succ _, Nat.le_succ _, hs.1 q hq⟩
      · rw [if_neg hk]
        exact nodeBump_refl q
    · rw [hedges]
      exact forall₂_self _ _ (fun r _ => edgeBump_refl r)
    · constructor
      · intro r hrm
        rw [hnodes] at hrm
        obtain ⟨q, hq, rfl⟩ := List.mem_map.mp hrm
        by_cases hk : q.node_type = t ∧ q.value = v
        · rw [if_pos hk]
        · rw [if_neg hk]; exact hs.1 q hq
      · intro r hrm
        rw [hedges] at hrm
        exact hs.2 r hrm
  | gedge st sv tt tv rel =>
    obtain ⟨a, b, hra, hrb, hpres, hfields⟩ := hr
    simp only [execOp]
    rw [hra, hrb]
    obtain ⟨hedges, hnodes, _⟩ := sge_present db now2
      { source_id := a, target_id := b, relation := rel,
        session_ids := [sid], event_ids := [eid] } hpres
    refine ⟨?_, ?_, ?_⟩
    · rw [hnodes]
      exact forall₂_self _ _ (fun r _ => nodeBump_refl r)
    · rw [hedges]
      refine forall₂_map_self _ _ _ (fun q hq => ?_)
      by_cases hk : q.source_id = a ∧ q.target_id = b ∧ q.relation = rel
      · rw [if_pos hk]
        obtain ⟨hsid, heid⟩ := hfields q hq hk
        exact ⟨rfl, rfl, rfl, rfl, rfl, hsid.symm ▸ rfl, heid.symm ▸ rfl,
          Nat.le_succ _, Nat.le_succ _, hs.2 q hq⟩
      · rw [if_neg hk]
        exact edgeBump_refl q
    · constructor
      · intro r hrm
        rw [hnodes] at hrm
        exact hs.1 r hrm
      · intro r hrm
        rw [hedges] at hrm
        obtain ⟨q, hq, rfl⟩ := List.mem_map.mp hrm
        by_cases hk : q.source_id = a ∧ q.target_id = b ∧ q.relation = rel
        · rw [if_pos hk]
        · rw [if_neg hk]; exact hs.2 q hq

theorem resolve_eq_of_forall₂ (t : NodeType) (v : String) :
    ∀ (l l' : List NodeRow), List.Forall₂ NodeBump l l' →
      (l'.find? (fun r => r.node_type = t ∧ r.value = v)).map (fun r => r.id) =
      (l.find? (fun r => r.node_type = t ∧ r.value = v)).map
        (fun r => r.id) := by
  intro l l' h
  induction h with
  | nil => rfl
  | cons hab htail ih =>
    rename_i a b as bs
    obtain ⟨hid, htype, hval, _⟩ := hab
    simp only [List.find?]
    by_cases hk : a.node_type = t ∧ a.value = v
    · have hk2 : b.node_type = t ∧ b.value = v := ⟨htype.trans hk.1,
        hval.trans hk.2⟩
      rw [decide_eq_true hk, decide_eq_true hk2]
      simp [hid]
    · have hk2 : ¬(b.node_type = t ∧ b.value = v) := by
        rw [htype, hval]; exact hk
      rw [decide_eq_false hk, decide_eq_false hk2]
      exact ih

theorem forall₂_mem_right {α : Type} (R : α → α → Prop) :
    ∀ {l l' : List α}, List.Forall₂ R l l' → ∀ x' ∈ l', ∃ x ∈ l, R x x' := by
  intro l l' h
  induction h with
  | nil => intro x' hx'; cases hx'
  | cons hab htail ih =>
    intro x' hx'
    rcases List.mem_cons.mp hx' with rfl | hmem
    · exact ⟨_, List.mem_cons_self _ _, hab⟩
    · obtain ⟨x, hx, hb⟩ := ih x' hmem
      exact ⟨x, List.mem_cons_of_mem _ hx, hb⟩

theorem forall₂_mem_left {α : Type} (R : α → α → Prop) :
    ∀ {l l' : List α}, List.Forall₂ R l l' → ∀ x ∈ l, ∃ x' ∈ l', R x x' := by
  intro l l' h
  induction h with
  | nil => intro x hx; cases hx
  | cons hab htail ih =>
    intro x hx
    rcases List.mem_cons.mp hx with rfl | hmem
    · exact ⟨_, List.mem_cons_self _ _, hab⟩
    · obtain ⟨x', hx', hb⟩ := ih x hmem
      exact ⟨x', List.mem_cons_of_mem _ hx', hb⟩

theorem opReady_transport (sid : String) (eid : Nat) (db db' : DB)
    (hn : List.Forall₂ NodeBump db.graph_nodes db'.graph_nodes)
    (he : List.Forall₂ EdgeBump db.graph_edges db'.graph_edges) :
    ∀ op, OpReady sid eid db op → OpReady sid eid db' op := by
  have hmemn := forall₂_mem_right NodeBump hn
  have hmemn₂ := forall₂_mem_left NodeBump hn
  have hmeme := forall₂_mem_right EdgeBump he
  have hmeme₂ := forall₂_mem_left EdgeBump he
  intro op hr
  cases op with
  | gnode t lbl v =>
    obtain ⟨⟨r, hrm, hk1, hk2⟩, hfields⟩ := hr
    obtain ⟨r', hr'm, hb⟩ := hmemn₂ r hrm
    refine ⟨⟨r', hr'm, hb.2.1.trans hk1, hb.2.2.1.trans hk2⟩, ?_⟩
    intro q' hq' hk
    obtain ⟨q, hqm, hqb⟩ := hmemn q' hq'
    have hkq : q.node_type = t ∧ q.value = v :=
      ⟨hqb.2.1 ▸ hk.1, hqb.2.2.1 ▸ hk.2⟩
    obtain ⟨hsid, heid⟩ := hfields q hqm hkq
    exact ⟨hqb.2.2.2.2.2.2.1.trans hsid, hqb.2.2.2.2.2.2.2.1.trans heid⟩
  | gedge st sv tt tv rel =>
    obtain ⟨a, b, hra, hrb, hpres, hfields⟩ := hr
    refine ⟨a, b, ?_, ?_, ?_, ?_⟩
    · have := resolve_eq_of_forall₂ st sv db.graph_nodes db'.graph_nodes hn
      unfold resolveNode at hra ⊢
      rw [this, hra]
    · have := resolve_eq_of_forall₂ tt tv db.graph_nodes db'.graph_nodes hn
      unfold resolveNode at hrb ⊢
      rw [this, hrb]
    · obtain ⟨r, hrm, hk⟩ := hpres
      obtain ⟨r', hr'm, hb⟩ := hmeme₂ r hrm
      exact ⟨r', hr'm, hb.2.1.trans hk.1, hb.2.2.1.trans hk.2.1,
        hb.2.2.2.1.trans hk.2.2⟩
    · intro q' hq' hk
      obtain ⟨q, hqm, hqb⟩ := hmeme q' hq'
      have hkq : q.source_id = a ∧ q.target_id = b ∧ q.relation = rel :=
        ⟨hqb.2.1 ▸ hk.1, hqb.2.2.1 ▸ hk.2.1, hqb.2.2.2.1 ▸ hk.2.2⟩
      obtain ⟨hsid, heid⟩ := hfields q hqm hkq
      exact ⟨hqb.2.2.2.2.2.1.trans hsid, hqb.2.2.2.2.2.2.1.trans heid⟩

theorem execScript_ready (now2 : Int) (sid : String) (eid : Nat) :
    ∀ (ops : List GOp) (db : DB),
      (∀ op ∈ ops, OpReady sid eid db op) → SeenBefore db now2 →
      List.Forall₂ NodeBump db.graph_nodes
        (execScript now2 sid eid db ops).graph_nodes ∧
      List.Forall₂ EdgeBump db.graph_edges
        (execScript now2 sid eid db ops).graph_edges ∧
      SeenBefore (execScript now2 sid eid db ops) now2 := by
  intro ops
  induction ops with
  | nil =>
    intro db _ hs
    exact ⟨forall₂_self _ _ (fun r _ => nodeBump_refl r),
      forall₂_self _ _ (fun r _ => edgeBump_refl r), hs⟩
  | cons op rest ih =>
    intro db hready hs
    have hstep := execOp_ready_step now2 sid eid db op
      (hready op (List.mem_cons_self _ _)) hs
    have hready' : ∀ op₂ ∈ rest, OpReady sid eid (execOp now2 sid eid db op) op₂ :=
      fun op₂ hm => opReady_transport sid eid db _ hstep.1 hstep.2.1 op₂
        (hready op₂ (List.mem_cons_of_mem _ hm))
    have hrest := ih (execOp now2 sid eid db op) hready' hstep.2.2
    refine ⟨?_, ?_, hrest.2.2⟩
    · exact forall₂_trans NodeBump nodeBump_trans _ _ _ hstep.1 hrest.1
    · exact forall₂_trans EdgeBump edgeBump_trans _ _ _ hstep.2.1 hrest.2.1

theorem sge_nodes (db : DB) (now : Int) (p : EdgeProp) :
    (save_graph_edge db now p).graph_nodes = db.graph_nodes := by
  by_cases h : ∃ r ∈ db.graph_edges,
      r.source_id = p.source_id ∧ r.target_id = p.target_id ∧
      r.relation = p.relation
  · exact (sge_present db now p h).2.1
  · exact (sge_absent db now p h).2.1

theorem execOp_gedge_nodes (now : Int) (sid : String) (eid : Nat) (db : DB)
    (st : NodeType) (sv : String) (tt : NodeType) (tv : String)
    (rel : EdgeRelation) :
    (execOp now sid eid db (.gedge st sv tt tv rel)).graph_nodes =
      db.graph_nodes := by
  simp only [execOp]
  cases resolveNode db st sv with
  | none => rfl
  | some a =>
    cases resolveNode db tt tv with
    | none => rfl
    | some b => exact sge_nodes db now _

theorem execOp_gnode_edges (now : Int) (sid : String) (eid : Nat) (db : DB)
    (t : NodeType) (lbl v : String) :
    (execOp now sid eid db (.gnode t lbl v)).graph_edges =
      db.graph_edges := by
  simp only [execOp]
  unfold save_graph_node
  cases db.graph_nodes.find? (fun r => r.node_type = t ∧ r.value = v) <;> rfl

theorem nodePresent_mono (now : Int) (sid : String) (eid : Nat) (db : DB)
    (op : GOp) (t : NodeType) (v : String) (h : nodePresent db t v) :
    nodePresent (execOp now sid eid db op) t v := by
  cases op with
  | gedge st sv tt tv rel =>
    unfold nodePresent
    rw [execOp_gedge_nodes]
    exact h
  | gnode t₂ lbl v₂ =>
    have hx : execOp now sid eid db (.gnode t₂ lbl v₂) =
        (save_graph_node db now
          { node_type := t₂, label := lbl, value := v₂,
            session_ids := [sid], event_ids := [eid] }).1 := rfl
    by_cases hp : nodePresent db t₂ v₂
    · obtain ⟨hnodes, _, _, _⟩ := sgn_present db now
        { node_type := t₂, label := lbl, value := v₂,
          session_ids := [sid], event_ids := [eid] } hp
      obtain ⟨r, hr, hk1, hk2⟩ := h
      unfold nodePresent
      rw [hx, hnodes]
      refine ⟨_, List.mem_map_of_mem _ hr, ?_⟩
      by_cases hk : r.node_type = t₂ ∧ r.value = v₂
      · rw [if_pos hk]; exact ⟨hk1, hk2⟩
      · rw [if_neg hk]; exact ⟨hk1, hk2⟩
    · obtain ⟨hnodes, _, _, _⟩ := sgn_absent db now
        { node_type := t₂, label := lbl, value := v₂,
          session_ids := [sid], event_ids := [eid] } hp
      obtain ⟨r, hr, hk⟩ := h
      unfold nodePresent
      rw [hx, hnodes]
      exact ⟨r, List.mem_append_left _ hr, hk⟩

theorem find?_map_keyid (f : NodeRow → NodeRow)
    (hf : ∀ x, (f x).node_type = x.node_type ∧ (f x).value = x.value ∧
      (f x).id = x.id) (t : NodeType) (v : String) :
    ∀ l : List NodeRow,
      ((l.map f).find? (fun r => r.node_type = t ∧ r.value = v)).map
          (fun r => r.id) =
        (l.find? (fun r => r.node_type = t ∧ r.value = v)).map
          (fun r => r.id) := by
  intro l
  induction l with
  | nil => rfl
  | cons x xs ih =>
    simp only [List.map_cons, List.find?]
    by_cases hk : x.node_type = t ∧ x.value = v
    · have hk2 : (f x).node_type = t ∧ (f x).value = v :=
        ⟨(hf x).1.trans hk.1, (hf x).2.1.trans hk.2⟩
      rw [decide_eq_true hk, decide_eq_true hk2]
      simp [(hf x).2.2]
    · have hk2 : ¬((f x).node_type = t ∧ (f x).value = v) := by
        rw [(hf x).1, (hf x).2.1]; exact hk
      rw [decide_eq_false hk, decide_eq_false hk2]
      exact ih

theorem find?_append_some {α : Type} (p : α → Bool) (r : α) :
    ∀ (l l₂ : List α), l.find? p = some r → (l ++ l₂).find? p = some r := by
  intro l l₂
  induction l with
  | nil => intro h; cases h
  | cons x xs ih =>
    intro h
    simp only [List.find?] at h ⊢
    cases hp : p x with
    | true => rw [hp] at h; exact h
    | false => rw [hp] at h; exact ih h

theorem resolve_stable (now : Int) (sid : String) (eid : Nat) (db : DB)
    (op : GOp) (t : NodeType) (v : String) (i : Nat)
    (h : resolveNode db t v = some i) :
    resolveNode (execOp now sid eid db op) t v = some i := by
  cases op with
  | gedge st sv tt tv rel =>
    unfold resolveNode
    rw [execOp_gedge_nodes]
    exact h
  | gnode t₂ lbl v₂ =>
    by_cases hp : nodePresent db t₂ v₂
    · obtain ⟨hnodes, _, _, _⟩ := sgn_present db now
        { node_type := t₂, label := lbl, value := v₂,
          session_ids := [sid], event_ids := [eid] } hp
      show resolveNode (save_graph_node db now _).1 t v = some i
      unfold resolveNode at h ⊢
      rw [hnodes, find?_map_keyid]
      · exact h
      · intro x
        by_cases hk : x.node_type = t₂ ∧ x.value = v₂
        · rw [if_pos hk]; exact ⟨rfl, rfl, rfl⟩
        · rw [if_neg hk]; exact ⟨rfl, rfl, rfl⟩
    · obtain ⟨hnodes, _, _, _⟩ := sgn_absent db now
        { node_type := t₂, label := lbl, value := v₂,
          session_ids := [sid], event_ids := [eid] } hp
      show resolveNode (save_graph_node db now _).1 t v = some i
      unfold resolveNode at h ⊢
      rw [hnodes]
      cases hfind : db.graph_nodes.find?
          (fun r => r.node_type = t ∧ r.value = v) with
      | none => rw [hfind] at h; cases h
      | some r =>
        rw [find?_append_some _ r _ _ hfind]
        rw [hfind] at h
        exact h

theorem nodePresent_resolve (db : DB) (t : NodeType) (v : String)
    (h : nodePresent db t v) : ∃ i, resolveNode db t v = some i := by
  have hf := (nodePresent_iff_find db t v).mp h
  cases hfind : db.graph_nodes.find?
      (fun r => r.node_type = t ∧ r.value = v) with
  | none => rw [hfind] at hf; cases hf
  | some r => exact ⟨r.id, by unfold resolveNode; rw [hfind]; rfl⟩

theorem nodeGood_from_gnode (now : Int) (sid : String) (eid : Nat) (db : DB)
    (t : NodeType) (lbl v : String) :
    NodeGood sid eid (execOp now sid eid db (.gnode t lbl v)) t v := by
  have hx : execOp now sid eid db (.gnode t lbl v) =
      (save_graph_node db now
        { node_type := t, label := lbl, value := v,
          session_ids := [sid], event_ids := [eid] }).1 := rfl
  by_cases hp : nodePresent db t v
  · obtain ⟨hnodes, _, _, _⟩ := sgn_present db now
      { node_type := t, label := lbl, value := v,
        session_ids := [sid], event_ids := [eid] } hp
    constructor
    · obtain ⟨r, hr, hk1, hk2⟩ := hp
      unfold nodePresent
      rw [hx, hnodes]
      refine ⟨_, List.mem_map_of_mem _ hr, ?_⟩
      rw [if_pos ⟨hk1, hk2⟩]
      exact ⟨hk1, hk2⟩
    · intro r hr hk
      rw [hx, hnodes] at hr
      obtain ⟨q, hq, rfl⟩ := List.mem_map.mp hr
      by_cases hqk : q.node_type = t ∧ q.value = v
      · rw [if_pos hqk]
        exact ⟨rfl, rfl⟩
      · rw [if_neg hqk] at hk ⊢
        exact absurd hk hqk
  · obtain ⟨hnodes, _, _, _⟩ := sgn_absent db now
      { node_type := t, label := lbl, value := v,
        session_ids := [sid], event_ids := [eid] } hp
    constructor
    · unfold nodePresent
      rw [hx, hnodes]
      exact ⟨_, List.mem_append_right _ (List.mem_singleton_self _),
        rfl, rfl⟩
    · intro r hr hk
      rw [hx, hnodes] at hr
      rcases List.mem_append.mp hr with hold | hnew
      · exact absurd ⟨r, hold, hk⟩ hp
      · rw [List.mem_singleton] at hnew
        subst hnew
        exact ⟨rfl, rfl⟩

theorem nodeGood_preserved (now : Int) (sid : String) (eid : Nat) (db : DB)
    (op : GOp) (t : NodeType) (v : String)
    (h : NodeGood sid eid db t v) :
    NodeGood sid eid (execOp now sid eid db op) t v := by
  obtain ⟨hpres, hfields⟩ := h
  refine ⟨nodePresent_mono now sid eid db op t v hpres, ?_⟩
  intro r hr hk
  cases op with
  | gedge st sv tt tv rel =>
    rw [execOp_gedge_nodes] at hr
    exact hfields r hr hk
  | gnode t₂ lbl v₂ =>
    have hx : execOp now sid eid db (.gnode t₂ lbl v₂) =
        (save_graph_node db now
          { node_type := t₂, label := lbl, value := v₂,
            session_ids := [sid], event_ids := [eid] }).1 := rfl
    by_cases hp : nodePresent db t₂ v₂
    · obtain ⟨hnodes, _, _, _⟩ := sgn_present db now
        { node_type := t₂, label := lbl, value := v₂,
          session_ids := [sid], event_ids := [eid] } hp
      rw [hx, hnodes] at hr
      obtain ⟨q, hq, rfl⟩ := List.mem_map.mp hr
      by_cases hqk : q.node_type = t₂ ∧ q.value = v₂
      · rw [if_pos hqk]
        exact ⟨rfl, rfl⟩
      · rw [if_neg hqk] at hk ⊢
        exact hfields q hq hk
    · obtain ⟨hnodes, _, _, _⟩ := sgn_absent db now
        { node_type := t₂, label := lbl, value := v₂,
          session_ids := [sid], event_ids := [eid] } hp
      rw [hx, hnodes] at hr
      rcases List.mem_append.mp hr with hold | hnew
      · exact hfields r hold hk
      · rw [List.mem_singleton] at hnew
        subst hnew
        exact ⟨rfl, rfl⟩

theorem edgeGood_from_gedge (now : Int) (sid : String) (eid : Nat) (db : DB)
    (st : NodeType) (sv : String) (tt : NodeType) (tv : String)
    (rel : EdgeRelation) (a b : Nat)
    (ha : resolveNode db st sv = some a)
    (hb : resolveNode db tt tv = some b) :
    EdgeGood sid eid (execOp now sid eid db (.gedge st sv tt tv rel))
      a b rel := by
  have hx : execOp now sid eid db (.gedge st sv tt tv rel) =
      save_graph_edge db now
        { source_id := a, target_id := b, relation := rel,
          session_ids := [sid], event_ids := [eid] } := by
    simp only [execOp]
    rw [ha, hb]
  rw [hx]
  by_cases hp : ∃ r ∈ db.graph_edges,
      r.source_id = a ∧ r.target_id = b ∧ r.relation = rel
  · obtain ⟨hedges, _, _⟩ := sge_present db now
      { source_id := a, target_id := b, relation := rel,
        session_ids := [sid], event_ids := [eid] } hp
    constructor
    · obtain ⟨r, hr, hk1, hk2, hk3⟩ := hp
      rw [hedges]
      refine ⟨_, List.mem_map_of_mem _ hr, ?_⟩
      rw [if_pos ⟨hk1, hk2, hk3⟩]
      exact ⟨hk1, hk2, hk3⟩
    · intro r hr hk
      rw [hedges] at hr
      obtain ⟨q, hq, rfl⟩ := List.mem_map.mp hr
      by_cases hqk : q.source_id = a ∧ q.target_id = b ∧ q.relation = rel
      · rw [if_pos hqk]
        exact ⟨rfl, rfl⟩
      · rw [if_neg hqk] at hk ⊢
        exact absurd hk hqk
  · obtain ⟨hedges, _, _⟩ := sge_absent db now
      { source_id := a, target_id := b, relation := rel,
        session_ids := [sid], event_ids := [eid] } hp
    constructor
    · rw [hedges]
      exact ⟨_, List.mem_append_right _ (List.mem_singleton_self _),
        rfl, rfl, rfl⟩
    · intro r hr hk
      rw [hedges] at hr
      rcases List.mem_append.mp hr with hold | hnew
      · exact absurd ⟨r, hold, hk⟩ hp
      · rw [List.mem_singleton] at hnew
        subst hnew
        exact ⟨rfl, rfl⟩

theorem edgeGood_preserved (now : Int) (sid : String) (eid : Nat) (db : DB)
    (op : GOp) (a b : Nat) (rel : EdgeRelation)
    (h : EdgeGood sid eid db a b rel) :
    EdgeGood sid eid (execOp now sid eid db op) a b rel := by
  obtain ⟨hpres, hfields⟩ := h
  cases op with
  | gnode t₂ lbl v₂ =>
    constructor
    · obtain ⟨r, hr, hk⟩ := hpres
      refine ⟨r, ?_, hk⟩
      rw [execOp_gnode_edges]
      exact hr
    · intro r hr hk
      rw [execOp_gnode_edges] at hr
      exact hfields r hr hk
  | gedge st sv tt tv rel₂ =>
    cases hra : resolveNode db st sv with
    | none =>
      have hx : execOp now sid eid db (.gedge st sv tt tv rel₂) = db := by
        simp only [execOp]
        rw [hra]
      rw [hx]
      exact ⟨hpres, hfields⟩
    | some a₂ =>
      cases hrb : resolveNode db tt tv with
      | none =>
        have hx : execOp now sid eid db (.gedge st sv tt tv rel₂) = db := by
          simp only [execOp]
          rw [hra, hrb]
        rw [hx]
        exact ⟨hpres, hfields⟩
      | some b₂ =>
        have hx : execOp now sid eid db (.gedge st sv tt tv rel₂) =
            save_graph_edge db now
              { source_id := a₂, target_id := b₂, relation := rel₂,
                session_ids := [sid], event_ids := [eid] } := by
          simp only [execOp]
          rw [hra, hrb]
        rw [hx]
        by_cases hp : ∃ r ∈ db.graph_edges,
            r.source_id = a₂ ∧ r.target_id = b₂ ∧ r.relation = rel₂
        · obtain ⟨hedges, _, _⟩ := sge_present db now
            { source_id := a₂, target_id := b₂, relation := rel₂,
              session_ids := [sid], event_ids := [eid] } hp
          constructor
          · obtain ⟨r, hr, hk1, hk2, hk3⟩ := hpres
            rw [hedges]
            refine ⟨_, List.mem_map_of_mem _ hr, ?_⟩
            by_cases hqk : r.source_id = a₂ ∧ r.target_id = b₂ ∧
                r.relation = rel₂
            · rw [if_pos hqk]
              exact ⟨hk1, hk2, hk3⟩
            · rw [if_neg hqk]
              exact ⟨hk1, hk2, hk3⟩
          · intro r hr hk
            rw [hedges] at hr
            obtain ⟨q, hq, rfl⟩ := List.mem_map.mp hr
            by_cases hqk : q.source_id = a₂ ∧ q.target_id = b₂ ∧
                q.relation = rel₂
            · rw [if_pos hqk]
              exact ⟨rfl, rfl⟩
            · rw [if_neg hqk] at hk ⊢
              exact hfields q hq hk
        · obtain ⟨hedges, _, _⟩ := sge_absent db now
            { source_id := a₂, target_id := b₂, relation := rel₂,
              session_ids := [sid], event_ids := [eid] } hp
          constructor
          · obtain ⟨r, hr, hk⟩ := hpres
            rw [hedges]
            exact ⟨r, List.mem_append_left _ hr, hk⟩
          · intro r hr hk
            rw [hedges] at hr
            rcases List.mem_append.mp hr with hold | hnew
            · exact hfields r hold hk
            · rw [List.mem_singleton] at hnew
              subst hnew
              exact ⟨rfl, rfl⟩

theorem execScript_cons (now : Int) (sid : String) (eid : Nat) (db : DB)
    (op : GOp) (ops : List GOp) :
    execScript now sid eid db (op :: ops) =
      execScript now sid eid (execOp now sid eid db op) ops := rfl

theorem nodePresent_script_mono (now : Int) (sid : String) (eid : Nat)
    (t : NodeType) (v : String) :
    ∀ (ops : List GOp) (db : DB), nodePresent db t v →
      nodePresent (execScript now sid eid db ops) t v := by
  intro ops
  induction ops with
  | nil => intro db h; exact h
  | cons op rest ih =>
    intro db h
    rw [execScript_cons]
    exact ih _ (nodePresent_mono now sid eid db op t v h)

theorem resolve_script_stable (now : Int) (sid : String) (eid : Nat)
    (t : NodeType) (v : String) (i : Nat) :
    ∀ (ops : List GOp) (db : DB), resolveNode db t v = some i →
      resolveNode (execScript now sid eid db ops) t v = some i := by
  intro ops
  induction ops with
  | nil => intro db h; exact h
  | cons op rest ih =>
    intro db h
    rw [execScript_cons]
    exact ih _ (resolve_stable now sid eid db op t v i h)

theorem nodeGood_script_preserved (now : Int) (sid : String) (eid : Nat)
    (t : NodeType) (v : String) :
    ∀ (ops : List GOp) (db : DB), NodeGood sid eid db t v →
      NodeGood sid eid (execScript now sid eid db ops) t v := by
  intro ops
  induction ops with
  | nil => intro db h; exact h
  | cons op rest ih =>
    intro db h
    rw [execScript_cons]
    exact ih _ (nodeGood_preserved now sid eid db op t v h)

theorem edgeGood_script_preserved (now : Int) (sid : String) (eid : Nat)
    (a b : Nat) (rel : EdgeRelation) :
    ∀ (ops : List GOp) (db : DB), EdgeGood sid eid db a b rel →
      EdgeGood sid eid (execScript now sid eid db ops) a b rel := by
  intro ops
  induction ops with
  | nil => intro db h; exact h
  | cons op rest ih =>
    intro db h
    rw [execScript_cons]
    exact ih _ (edgeGood_preserved now sid eid db op a b rel h)

theorem seenBefore_execOp (now : Int) (sid : String) (eid : Nat) (db : DB)
    (op : GOp) (h : SeenBefore db now) :
    SeenBefore (execOp now sid eid db op) now := by
  obtain ⟨hn, he⟩ := h
  cases op with
  | gnode t lbl v =>
    have hx : execOp now sid eid db (.gnode t lbl v) =
        (save_graph_node db now
          { node_type := t, label := lbl, value := v,
            session_ids := [sid], event_ids := [eid] }).1 := rfl
    by_cases hp : nodePresent db t v
    · obtain ⟨hnodes, hedges, _, _⟩ := sgn_present db now
        { node_type := t, label := lbl, value := v,
          session_ids := [sid], event_ids := [eid] } hp
      constructor
      · intro r hr
        rw [hx, hnodes] at hr
        obtain ⟨q, hq, rfl⟩ := List.mem_map.mp hr
        by_cases hqk : q.node_type = t ∧ q.value = v
        · rw [if_pos hqk]
        · rw [if_neg hqk]
          exact hn q hq
      · intro r hr
        rw [hx, hedges] at hr
        exact he r hr
    · obtain ⟨hnodes, hedges, _, _⟩ := sgn_absent db now
        { node_type := t, label := lbl, value := v,
          session_ids := [sid], event_ids := [eid] } hp
      constructor
      · intro r hr
        rw [hx, hnodes] at hr
        rcases List.mem_append.mp hr with hold | hnew
        · exact hn r hold
        · rw [List.mem_singleton] at hnew
          subst hnew
          exact le_refl now
      · intro r hr
        rw [hx, hedges] at hr
        exact he r hr
  | gedge st sv tt tv rel =>
    cases hra : resolveNode db st sv with
    | none =>
      have hx : execOp now sid eid db (.gedge st sv tt tv rel) = db := by
        simp only [execOp]
        rw [hra]
      rw [hx]
      exact ⟨hn, he⟩
    | some a =>
      cases hrb : resolveNode db tt tv with
      | none =>
        have hx : execOp now sid eid db (.gedge st sv tt tv rel) = db := by
          simp only [execOp]
          rw [hra, hrb]
        rw [hx]
        exact ⟨hn, he⟩
      | some b =>
        have hx : execOp now sid eid db (.gedge st sv tt tv rel) =
            save_graph_edge db now
              { source_id := a, target_id := b, relation := rel,
                session_ids := [sid], event_ids := [eid] } := by
          simp only [execOp]
          rw [hra, hrb]
        rw [hx]
        by_cases hp : ∃ r ∈ db.graph_edges,
            r.source_id = a ∧ r.target_id = b ∧ r.relation = rel
        · obtain ⟨hedges, hnodes, _⟩ := sge_present db now
            { source_id := a, target_id := b, relation := rel,
              session_ids := [sid], event_ids := [eid] } hp
          constructor
          · intro r hr
            rw [hnodes] at hr
            exact hn r hr
          · intro r hr
            rw [hedges] at hr
            obtain ⟨q, hq, rfl⟩ := List.mem_map.mp hr
            by_cases hqk : q.source_id = a ∧ q.target_id = b ∧
                q.relation = rel
            · rw [if_pos hqk]
            · rw [if_neg hqk]
              exact he q hq
        · obtain ⟨hedges, hnodes, _⟩ := sge_absent db now
            { source_id := a, target_id := b, relation := rel,
              session_ids := [sid], event_ids := [eid] } hp
          constructor
          · intro r hr
            rw [hnodes] at hr
            exact hn r hr
          · intro r hr
            rw [hedges] at hr
            rcases List.mem_append.mp hr with hold | hnew
            · exact he r hold
            · rw [List.mem_singleton] at hnew
              subst hnew
              exact le_refl now

theorem seenBefore_execScript (now : Int) (sid : String) (eid : Nat) :
    ∀ (ops : List GOp) (db : DB), SeenBefore db now →
      SeenBefore (execScript now sid eid db ops) now := by
  intro ops
  induction ops with
  | nil => intro db h; exact h
  | cons op rest ih =>
    intro db h
    rw [execScript_cons]
    exact ih _ (seenBefore_execOp now sid eid db op h)

theorem seenBefore_mono (db : DB) (now now2 : Int) (h : SeenBefore db now)
    (hle : now ≤ now2) : SeenBefore db now2 := by
  obtain ⟨hn, he⟩ := h
  exact ⟨fun r hr => le_trans (hn r hr) hle,
    fun r hr => le_trans (he r hr) hle⟩

theorem scriptOk_mono :
    ∀ (l : List GOp) (P Q : NodeType → String → Prop),
      (∀ t v, P t v → Q t v) → ScriptOk P l → ScriptOk Q l := by
  intro l
  induction l with
  | nil => intro P Q _ _; trivial
  | cons op rest ih =>
    intro P Q hPQ h
    cases op with
    | gnode t lbl v =>
      exact ih _ _
        (fun a b hab => hab.elim (fun x => Or.inl (hPQ a b x)) Or.inr) h
    | gedge st sv tt tv rel =>
      obtain ⟨ha, hb, h'⟩ := h
      exact ⟨hPQ _ _ ha, hPQ _ _ hb, ih _ _ hPQ h'⟩

theorem scriptOk_append :
    ∀ (l₁ : List GOp) (P : NodeType → String → Prop) (l₂ : List GOp),
      ScriptOk P l₁ → ScriptOk (scriptPost P l₁) l₂ →
      ScriptOk P (l₁ ++ l₂) := by
  intro l₁
  induction l₁ with
  | nil =>
    intro P l₂ _ h₂
    exact h₂
  | cons op rest ih =>
    intro P l₂ h₁ h₂
    cases op with
    | gnode t lbl v =>
      exact ih _ l₂ h₁ h₂
    | gedge st sv tt tv rel =>
      obtain ⟨ha, hb, h₁'⟩ := h₁
      exact ⟨ha, hb, ih _ l₂ h₁' h₂⟩

theorem le_scriptPost :
    ∀ (l : List GOp) (P : NodeType → String → Prop) (t : NodeType)
      (v : String), P t v → scriptPost P l t v := by
  intro l
  induction l with
  | nil => intro P t v h; exact h
  | cons op rest ih =>
    intro P t v h
    cases op with
    | gnode t₂ lbl v₂ => exact ih _ t v (Or.inl h)
    | gedge st sv tt tv rel => exact ih _ t v h

theorem scriptPost_gnode_mem :
    ∀ (l : List GOp) (P : NodeType → String → Prop) (t : NodeType)
      (lbl v : String), GOp.gnode t lbl v ∈ l → scriptPost P l t v := by
  intro l
  induction l with
  | nil => intro P t lbl v h; cases h
  | cons op rest ih =>
    intro P t lbl v h
    rcases List.mem_cons.mp h with heq | hmem
    · subst heq
      exact le_scriptPost rest _ t v (Or.inr ⟨rfl, rfl⟩)
    · cases op with
      | gnode t₂ lbl₂ v₂ => exact ih _ t lbl v hmem
      | gedge st sv tt tv rel => exact ih _ t lbl v hmem

theorem scriptOk_flatMap {α : Type} (g : α → List GOp) :
    ∀ (xs : List α) (P : NodeType → String → Prop),
      (∀ (Q : NodeType → String → Prop), (∀ t v, P t v → Q t v) →
        ∀ x ∈ xs, ScriptOk Q (g x)) →
      ∀ (Q : NodeType → String → Prop), (∀ t v, P t v → Q t v) →
        ScriptOk Q (xs.flatMap g) := by
  intro xs
  induction xs with
  | nil =>
    intro P _ Q _
    rw [List.flatMap_nil]
    trivial
  | cons x xs ih =>
    intro P h Q hQ
    rw [List.flatMap_cons]
    refine scriptOk_append (g x) Q (xs.flatMap g)
      (h Q hQ x (List.mem_cons_self x xs)) ?_
    exact ih P (fun R hR y hy => h R hR y (List.mem_cons_of_mem x hy))
      (scriptPost Q (g x))
      (fun t v hp => le_scriptPost (g x) Q t v (hQ t v hp))

theorem scriptOk_map_edges {α : Type} (Q : NodeType → String → Prop)
    (f : α → GOp) :
    ∀ xs : List α,
      (∀ x ∈ xs, ∃ st sv tt tv rel, f x = GOp.gedge st sv tt tv rel ∧
        Q st sv ∧ Q tt tv) →
      ScriptOk Q (xs.map f) := by
  intro xs
  induction xs with
  | nil => intro _; trivial
  | cons x xs ih =>
    intro h
    obtain ⟨st, sv, tt, tv, rel, hfx, hs, ht⟩ :=
      h x (List.mem_cons_self x xs)
    rw [List.map_cons, hfx]
    exact ⟨hs, ht, ih (fun y hy => h y (List.mem_cons_of_mem x hy))⟩

theorem execScript_post (now : Int) (sid : String) (eid : Nat) :
    ∀ (ops : List GOp) (db : DB),
      ScriptOk (fun t v => nodePresent db t v) ops →
      ∀ op ∈ ops, OpReady sid eid (execScript now sid eid db ops) op := by
  intro ops
  induction ops with
  | nil => intro db _ op hop; cases hop
  | cons op₀ rest ih =>
    intro db hok op hop
    rw [execScript_cons]
    cases op₀ with
    | gnode t lbl v =>
      have hok' : ScriptOk (fun t₂ v₂ =>
          nodePresent db t₂ v₂ ∨ (t₂ = t ∧ v₂ = v)) rest := hok
      have hmono : ∀ t₂ v₂,
          (nodePresent db t₂ v₂ ∨ (t₂ = t ∧ v₂ = v)) →
          nodePresent (execOp now sid eid db (.gnode t lbl v)) t₂ v₂ := by
        intro t₂ v₂ h₂
        rcases h₂ with hp | ⟨rfl, rfl⟩
        · exact nodePresent_mono now sid eid db _ t₂ v₂ hp
        · exact (nodeGood_from_gnode now sid eid db _ lbl _).1
      rcases List.mem_cons.mp hop with heq | hmem
      · subst heq
        exact nodeGood_script_preserved now sid eid t v rest _
          (nodeGood_from_gnode now sid eid db t lbl v)
      · exact ih _ (scriptOk_mono rest _ _ hmono hok') op hmem
    | gedge st sv tt tv rel =>
      obtain ⟨hs, ht, hrest⟩ := hok
      obtain ⟨a, ha⟩ := nodePresent_resolve db st sv hs
      obtain ⟨b, hb⟩ := nodePresent_resolve db tt tv ht
      have ha1 : resolveNode (execOp now sid eid db (.gedge st sv tt tv rel))
          st sv = some a :=
        resolve_stable now sid eid db _ st sv a ha
      have hb1 : resolveNode (execOp now sid eid db (.gedge st sv tt tv rel))
          tt tv = some b :=
        resolve_stable now sid eid db _ tt tv b hb
      rcases List.mem_cons.mp hop with heq | hmem
      · subst heq
        refine ⟨a, b, ?_, ?_, ?_⟩
        · exact resolve_script_stable now sid eid st sv a rest _ ha1
        · exact resolve_script_stable now sid eid tt tv b rest _ hb1
        · exact edgeGood_script_preserved now sid eid a b rel rest _
            (edgeGood_from_gedge now sid eid db st sv tt tv rel a b ha hb)
      · have hmono : ∀ t₂ v₂, nodePresent db t₂ v₂ →
            nodePresent (execOp now sid eid db (.gedge st sv tt tv rel))
              t₂ v₂ :=
          fun t₂ v₂ hp => nodePresent_mono now sid eid db _ t₂ v₂ hp
        exact ih _ (scriptOk_mono rest _ _ hmono hrest) op hmem


theorem graphScript_ok (tf : TextFuns) (e : Event)
    (P : NodeType → String → Prop) : ScriptOk P (graphScript tf e) := by
  simp only [graphScript]
  by_cases htn : e.tool_name.getD "" ≠ ""
  · simp only [if_pos htn]
    by_cases hcm : e.commands = []
    · have hcmn : ¬ e.commands ≠ [] := fun h => h hcm
      simp only [if_pos hcm, if_neg hcmn]
      rw [hcm]
      simp only [List.flatMap_nil, List.append_nil]
      refine scriptOk_append _ _ _ ?_ ?_
      · refine scriptOk_append _ _ _ ?_ ?_
        · refine scriptOk_append _ _ _ ?_ ?_
          · trivial
          · exact ⟨Or.inl (scriptPost_gnode_mem _ P .session
              (e.session_id.take 16) e.session_id
              (List.mem_cons_self _ _)),
              Or.inr ⟨rfl, rfl⟩, trivial⟩
        · refine scriptOk_flatMap _ _ _ ?_ _ (fun t v h => h)
          intro Q hQ fp hfp
          refine ⟨Or.inl (hQ _ _ ?_), Or.inr ⟨rfl, rfl⟩, trivial⟩
          exact scriptPost_gnode_mem _ P .tool (e.tool_name.getD "")
            (e.tool_name.getD "" ++ ":" ++ e.session_id)
            (List.mem_append_right _ (List.mem_cons_self _ _))
      · refine scriptOk_flatMap _ _ _ ?_ _ (fun t v h => h)
        intro Q hQ url hurl
        refine ⟨Or.inl (hQ _ _ ?_), Or.inr ⟨rfl, rfl⟩, trivial⟩
        exact scriptPost_gnode_mem _ P .tool (e.tool_name.getD "")
          (e.tool_name.getD "" ++ ":" ++ e.session_id)
          (List.mem_append_left _
            (List.mem_append_right _ (List.mem_cons_self _ _)))
    · simp only [if_neg hcm, if_pos hcm, List.append_nil]
      refine scriptOk_append _ _ _ ?_ ?_
      · refine scriptOk_append _ _ _ ?_ ?_
        · refine scriptOk_append _ _ _ ?_ ?_
          · trivial
          · exact ⟨Or.inl (scriptPost_gnode_mem _ P .session
              (e.session_id.take 16) e.session_id
              (List.mem_cons_self _ _)),
              Or.inr ⟨rfl, rfl⟩, trivial⟩
        · refine scriptOk_flatMap _ _ _ ?_ _ (fun t v h => h)
          intro Q hQ cmd hcmd
          refine ⟨Or.inl (hQ _ _ ?_), Or.inr ⟨rfl, rfl⟩,
            Or.inl (Or.inr ⟨rfl, rfl⟩), Or.inr ⟨rfl, rfl⟩, ?_⟩
          · exact scriptPost_gnode_mem _ P .tool (e.tool_name.getD "")
              (e.tool_name.getD "" ++ ":" ++ e.session_id)
              (List.mem_append_right _ (List.mem_cons_self _ _))
          · refine scriptOk_flatMap _ _ _ ?_ _ (fun t v h => h)
            intro R hR ref href
            exact ⟨Or.inl (hR _ _ (Or.inr ⟨rfl, rfl⟩)),
              Or.inr ⟨rfl, rfl⟩, trivial⟩
      · refine scriptOk_flatMap _ _ _ ?_ _ (fun t v h => h)
        intro Q hQ url hurl
        have hproc : ∀ cmd ∈ e.commands, Q .process cmd := by
          intro cmd hc
          refine hQ _ _ (scriptPost_gnode_mem _ P .process
            (cmd.take 60 ++ if cmd.length > 60 then "..." else "") cmd ?_)
          refine List.mem_append_right _ ?_
          refine List.mem_flatMap.mpr ⟨cmd, hc, ?_⟩
          exact List.mem_append_left _
            (List.mem_cons_of_mem _ (List.mem_cons_of_mem _
              (List.mem_cons_self _ _)))
        exact scriptOk_map_edges _ _ _ (fun cmd hc =>
          ⟨.process, cmd, .url, url, .connects_to, rfl,
            Or.inl (hproc cmd hc), Or.inr ⟨rfl, rfl⟩⟩)
  · simp only [if_neg htn]
    by_cases hcm : e.commands = []
    · have hcmn : ¬ e.commands ≠ [] := fun h => h hcm
      simp only [if_pos hcm, if_neg hcmn]
      rw [hcm]
      simp only [List.flatMap_nil, List.append_nil]
      refine scriptOk_append _ _ _ ?_ ?_
      · refine scriptOk_append _ _ _ ?_ ?_
        · trivial
        · refine scriptOk_flatMap _ _ _ ?_ _ (fun t v h => h)
          intro Q hQ fp hfp
          refine ⟨Or.inl (hQ _ _ ?_), Or.inr ⟨rfl, rfl⟩, trivial⟩
          exact scriptPost_gnode_mem _ P .session (e.session_id.take 16)
            e.session_id (List.mem_cons_self _ _)
      · refine scriptOk_flatMap _ _ _ ?_ _ (fun t v h => h)
        intro Q hQ url hurl
        refine ⟨Or.inl (hQ _ _ ?_), Or.inr ⟨rfl, rfl⟩, trivial⟩
        exact scriptPost_gnode_mem _ P .session (e.session_id.take 16)
          e.session_id
          (List.mem_append_left _ (List.mem_cons_self _ _))
    · simp only [if_neg hcm, if_pos hcm, List.append_nil]
      refine scriptOk_append _ _ _ ?_ ?_
      · refine scriptOk_append _ _ _ ?_ ?_
        · trivial
        · refine scriptOk_flatMap _ _ _ ?_ _ (fun t v h => h)
          intro Q hQ cmd hcmd
          refine ⟨Or.inl (hQ _ _ ?_), Or.inr ⟨rfl, rfl⟩,
            Or.inl (Or.inr ⟨rfl, rfl⟩), Or.inr ⟨rfl, rfl⟩, ?_⟩
          · exact scriptPost_gnode_mem _ P .session (e.session_id.take 16)
              e.session_id (List.mem_cons_self _ _)
          · refine scriptOk_flatMap _ _ _ ?_ _ (fun t v h => h)
            intro R hR ref href
            exact ⟨Or.inl (hR _ _ (Or.inr ⟨rfl, rfl⟩)),
              Or.inr ⟨rfl, rfl⟩, trivial⟩
      · refine scriptOk_flatMap _ _ _ ?_ _ (fun t v h => h)
        intro Q hQ url hurl
        have hproc : ∀ cmd ∈ e.commands, Q .process cmd := by
          intro cmd hc
          refine hQ _ _ (scriptPost_gnode_mem _ P .process
            (cmd.take 60 ++ if cmd.length > 60 then "..." else "") cmd ?_)
          refine List.mem_append_right _ ?_
          refine List.mem_flatMap.mpr ⟨cmd, hc, ?_⟩
          exact List.mem_append_left _
            (List.mem_cons_of_mem _ (List.mem_cons_of_mem _
              (List.mem_cons_self _ _)))
        exact scriptOk_map_edges _ _ _ (fun cmd hc =>
          ⟨.process, cmd, .url, url, .connects_to, rfl,
            Or.inl (hproc cmd hc), Or.inr ⟨rfl, rfl⟩⟩)

theorem pairwise_nkey_map (f : NodeRow → NodeRow)
    (hf : ∀ x, (f x).node_type = x.node_type ∧ (f x).value = x.value)
    (l : List NodeRow)
    (h : l.Pairwise (fun a b =>
      ¬(a.node_type = b.node_type ∧ a.value = b.value))) :
    (l.map f).Pairwise (fun a b =>
      ¬(a.node_type = b.node_type ∧ a.value = b.value)) := by
  rw [List.pairwise_map]
  refine h.imp ?_
  intro a b hab hk
  exact hab ⟨((hf a).1.symm.trans hk.1).trans (hf b).1,
    ((hf a).2.symm.trans hk.2).trans (hf b).2⟩

theorem pairwise_ekey_map (f : EdgeRow → EdgeRow)
    (hf : ∀ x, (f x).source_id = x.source_id ∧
      (f x).target_id = x.target_id ∧ (f x).relation = x.relation)
    (l : List EdgeRow)
    (h : l.Pairwise (fun a b =>
      ¬(a.source_id = b.source_id ∧ a.target_id = b.target_id ∧
        a.relation = b.relation))) :
    (l.map f).Pairwise (fun a b =>
      ¬(a.source_id = b.source_id ∧ a.target_id = b.target_id ∧
        a.relation = b.relation)) := by
  rw [List.pairwise_map]
  refine h.imp ?_
  intro a b hab hk
  exact hab ⟨((hf a).1.symm.trans hk.1).trans (hf b).1,
    ((hf a).2.1.symm.trans hk.2.1).trans (hf b).2.1,
    ((hf a).2.2.symm.trans hk.2.2).trans (hf b).2.2⟩

theorem uniqueNode_execOp (now : Int) (sid : String) (eid : Nat) (db : DB)
    (op : GOp) (h : UniqueNodeKeys db) :
    UniqueNodeKeys (execOp now sid eid db op) := by
  cases op with
  | gedge st sv tt tv rel =>
    unfold UniqueNodeKeys
    rw [execOp_gedge_nodes]
    exact h
  | gnode t lbl v =>
    have hx : execOp now sid eid db (.gnode t lbl v) =
        (save_graph_node db now
          { node_type := t, label := lbl, value := v,
            session_ids := [sid], event_ids := [eid] }).1 := rfl
    by_cases hp : nodePresent db t v
    · obtain ⟨hnodes, _, _, _⟩ := sgn_present db now
        { node_type := t, label := lbl, value := v,
          session_ids := [sid], event_ids := [eid] } hp
      unfold UniqueNodeKeys
      rw [hx, hnodes]
      refine pairwise_nkey_map _ ?_ _ h
      intro x
      by_cases hxk : x.node_type = t ∧ x.value = v
      · rw [if_pos hxk]
        exact ⟨rfl, rfl⟩
      · rw [if_neg hxk]
        exact ⟨rfl, rfl⟩
    · obtain ⟨hnodes, _, _, _⟩ := sgn_absent db now
        { node_type := t, label := lbl, value := v,
          session_ids := [sid], event_ids := [eid] } hp
      unfold UniqueNodeKeys
      rw [hx, hnodes]
      refine List.pairwise_append.mpr ⟨h, List.pairwise_singleton _ _, ?_⟩
      intro a ha b hb
      rw [List.mem_singleton] at hb
      subst hb
      intro hk
      exact hp ⟨a, ha, hk.1, hk.2⟩

theorem uniqueEdge_execOp (now : Int) (sid : String) (eid : Nat) (db : DB)
    (op : GOp) (h : UniqueEdgeKeys db) :
    UniqueEdgeKeys (execOp now sid eid db op) := by
  cases op with
  | gnode t lbl v =>
    unfold UniqueEdgeKeys
    rw [execOp_gnode_edges]
    exact h
  | gedge st sv tt tv rel =>
    cases hra : resolveNode db st sv with
    | none =>
      have hx : execOp now sid eid db (.gedge st sv tt tv rel) = db := by
        simp only [execOp]
        rw [hra]
      rw [hx]
      exact h
    | some a =>
      cases hrb : resolveNode db tt tv with
      | none =>
        have hx : execOp now sid eid db (.gedge st sv tt tv rel) = db := by
          simp only [execOp]
          rw [hra, hrb]
        rw [hx]
        exact h
      | some b =>
        have hx : execOp now sid eid db (.gedge st sv tt tv rel) =
            save_graph_edge db now
              { source_id := a, target_id := b, relation := rel,
                session_ids := [sid], event_ids := [eid] } := by
          simp only [execOp]
          rw [hra, hrb]
        by_cases hp : ∃ r ∈ db.graph_edges,
            r.source_id = a ∧ r.target_id = b ∧ r.relation = rel
        · obtain ⟨hedges, _, _⟩ := sge_present db now
            { source_id := a, target_id := b, relation := rel,
              session_ids := [sid], event_ids := [eid] } hp
          unfold UniqueEdgeKeys
          rw [hx, hedges]
          refine pairwise_ekey_map _ ?_ _ h
          intro x
          by_cases hxk : x.source_id = a ∧ x.target_id = b ∧
              x.relation = rel
          · rw [if_pos hxk]
            exact ⟨rfl, rfl, rfl⟩
          · rw [if_neg hxk]
            exact ⟨rfl, rfl, rfl⟩
        · obtain ⟨hedges, _, _⟩ := sge_absent db now
            { source_id := a, target_id := b, relation := rel,
              session_ids := [sid], event_ids := [eid] } hp
          unfold UniqueEdgeKeys
          rw [hx, hedges]
          refine List.pairwise_append.mpr
            ⟨h, List.pairwise_singleton _ _, ?_⟩
          intro x hxm y hy
          rw [List.mem_singleton] at hy
          subst hy
          intro hk
          exact hp ⟨x, hxm, hk.1, hk.2.1, hk.2.2⟩

theorem uniqueNode_execScript (now : Int) (sid : String) (eid : Nat) :
    ∀ (ops : List GOp) (db : DB), UniqueNodeKeys db →
      UniqueNodeKeys (execScript now sid eid db ops) := by
  intro ops
  induction ops with
  | nil => intro db h; exact h
  | cons op rest ih =>
    intro db h
    rw [execScript_cons]
    exact ih _ (uniqueNode_execOp now sid eid db op h)

theorem uniqueEdge_execScript (now : Int) (sid : String) (eid : Nat) :
    ∀ (ops : List GOp) (db : DB), UniqueEdgeKeys db →
      UniqueEdgeKeys (execScript now sid eid db ops) := by
  intro ops
  induction ops with
  | nil => intro db h; exact h
  | cons op rest ih =>
    intro db h
    rw [execScript_cons]
    exact ih _ (uniqueEdge_execOp now sid eid db op h)

theorem nodeSkel_of_bump :
    ∀ {l l₂ : List NodeRow}, List.Forall₂ NodeBump l l₂ →
      l₂.map (fun r => (r.id, r.node_type, r.value)) =
        l.map (fun r => (r.id, r.node_type, r.value)) := by
  intro l l₂ h
  induction h with
  | nil => rfl
  | cons hr hrest ih =>
    simp only [List.map_cons, ih]
    obtain ⟨h1, h2, h3, _⟩ := hr
    rw [h1, h2, h3]

theorem edgeSkel_of_bump :
    ∀ {l l₂ : List EdgeRow}, List.Forall₂ EdgeBump l l₂ →
      l₂.map (fun r => (r.id, r.source_id, r.target_id, r.relation)) =
        l.map (fun r => (r.id, r.source_id, r.target_id, r.relation)) := by
  intro l l₂ h
  induction h with
  | nil => rfl
  | cons hr hrest ih =>
    simp only [List.map_cons, ih]
    obtain ⟨h1, h2, h3, h4, _⟩ := hr
    rw [h1, h2, h3, h4]

/-- C7: graph upserts are idempotent in identity.  Starting from a store
whose node keys `(node_type, value)` and edge keys
`(source_id, target_id, relation)` are unique and whose timestamps are at
or before `now`, one run of the graph builder keeps both uniqueness
invariants, and a second run of the builder on the same enriched event at
a later time `now2` creates no new nodes or edges: the node and edge
identity skeletons are unchanged, and row for row the second run only
advances `last_seen` and grows `access_count`/`size` on nodes and
`count`/`weight` on edges, every other field staying fixed. -/
theorem c7_graph_idempotent (tf : TextFuns) (e : Event) (db : DB)
    (now now2 : Int) (hle : now ≤ now2) (hseen : SeenBefore db now)
    (hun : UniqueNodeKeys db) (hue : UniqueEdgeKeys db) :
    UniqueNodeKeys (build_graph tf now e db) ∧
    UniqueEdgeKeys (build_graph tf now e db) ∧
    nodeSkel (build_graph tf now2 e (build_graph tf now e db)) =
      nodeSkel (build_graph tf now e db) ∧
    edgeSkel (build_graph tf now2 e (build_graph tf now e db)) =
      edgeSkel (build_graph tf now e db) ∧
    List.Forall₂ NodeBump (build_graph tf now e db).graph_nodes
      (build_graph tf now2 e (build_graph tf now e db)).graph_nodes ∧
    List.Forall₂ EdgeBump (build_graph tf now e db).graph_edges
      (build_graph tf now2 e (build_graph tf now e db)).graph_edges := by
  have hready : ∀ op ∈ graphScript tf e,
      OpReady e.session_id e.id (build_graph tf now e db) op :=
    execScript_post now e.session_id e.id (graphScript tf e) db
      (graphScript_ok tf e _)
  have hseen1 : SeenBefore (build_graph tf now e db) now :=
    seenBefore_execScript now e.session_id e.id (graphScript tf e) db hseen
  have hseen2 : SeenBefore (build_graph tf now e db) now2 :=
    seenBefore_mono _ now now2 hseen1 hle
  obtain ⟨hn, hed, _⟩ := execScript_ready now2 e.session_id e.id
    (graphScript tf e) (build_graph tf now e db) hready hseen2
  refine ⟨?_, ?_, nodeSkel_of_bump hn, edgeSkel_of_bump hed, hn, hed⟩
  · exact uniqueNode_execScript now e.session_id e.id (graphScript tf e)
      db hun
  · exact uniqueEdge_execScript now e.session_id e.id (graphScript tf e)
      db hue

/-- Witness for C7: the builder run twice (at times 0 and 1) on the
concrete event `evC7` over the empty store satisfies every hypothesis
and keeps the node and edge identity skeletons fixed. -/
theorem c7_witness :
    UniqueNodeKeys (build_graph tfC7 0 evC7 {}) ∧
    nodeSkel (build_graph tfC7 1 evC7 (build_graph tfC7 0 evC7 {})) =
      nodeSkel (build_graph tfC7 0 evC7 {}) ∧
    edgeSkel (build_graph tfC7 1 evC7 (build_graph tfC7 0 evC7 {})) =
      edgeSkel (build_graph tfC7 0 evC7 {}) := by
  have h := c7_graph_idempotent tfC7 evC7 {} 0 1 (by decide)
    ⟨(fun r hr => nomatch hr), (fun r hr => nomatch hr)⟩
    List.Pairwise.nil List.Pairwise.nil
  exact ⟨h.1, h.2.2.1, h.2.2.2.1⟩
